import Mathlib

/-!
Verification of the nest-notifier Cloudflare worker (src/index.ts, src/types.ts).

The development shallowly embeds the worker's two pipelines:

* the notify pipeline (`fetch` routing, webhook-secret check, `handleWebhook`,
  `formatSlackMessage`, the template substitution loop), and
* the interaction pipeline (`isValidSlackRequest`, `timingSafeEqual`,
  `handleSlackInteraction`, `formatUpdatedMessage`).

Host primitives (the JS `JSON.stringify` / `JSON.parse` pair, property access
on parsed JSON values including `undefined` / `null` `TypeError`s, string
`replace`, `parseInt`, template-literal coercion) are modelled explicitly so
that the worker code itself can be translated line by line.  JSON text is
modelled as `List Char`; the JSON data model is the mutual inductive `Json`.
The parser is strict about whitespace (the real `JSON.parse` also skips
whitespace, which never appears in the strings this worker produces).
-/

set_option maxHeartbeats 1000000

namespace NestNotifier

mutual

/-- JSON values, as produced by `JSON.parse` (mutually with array element and
object field lists so that structural recursion and induction stay simple).
Numbers are modelled as integers, the only numeric values this worker ever
produces or consumes. Object fields keep their textual order and may repeat;
property lookup takes the last binding, as JS object assignment does. -/
inductive Json where
  | null : Json
  | bool (b : Bool) : Json
  | num (n : Int) : Json
  | str (s : String) : Json
  | arr (items : JItems) : Json
  | obj (fields : JFields) : Json
  deriving DecidableEq

/-- A list of JSON array elements. -/
inductive JItems where
  | nil : JItems
  | cons (head : Json) (tail : JItems) : JItems
  deriving DecidableEq

/-- A list of JSON object fields, in textual order. -/
inductive JFields where
  | nil : JFields
  | cons (key : String) (val : Json) (tail : JFields) : JFields
  deriving DecidableEq

end

/-! ## JSON.stringify

`JSON.stringify` is modelled over `List Char`.  String escaping follows the
JS quoting rules: `"` and `\` get a backslash escape, the control characters
with shorthand escapes use them, every other control character becomes
`\u00xx` (lower-case hex), and everything else is emitted literally. -/

/-- Hex digit character for a value below 16 (lower case, as JS emits). -/
def hexChar (n : Nat) : Char :=
  if n < 10 then Char.ofNat (48 + n) else Char.ofNat (87 + n)

/-- The JS string-quoting escape of a single character. -/
def escapeChar (c : Char) : List Char :=
  if c = '"' then ['\\', '"']
  else if c = '\\' then ['\\', '\\']
  else if c.toNat = 8 then ['\\', 'b']
  else if c.toNat = 9 then ['\\', 't']
  else if c.toNat = 10 then ['\\', 'n']
  else if c.toNat = 12 then ['\\', 'f']
  else if c.toNat = 13 then ['\\', 'r']
  else if c.toNat < 32 then
    ['\\', 'u', '0', '0', hexChar (c.toNat / 16), hexChar (c.toNat % 16)]
  else [c]

/-- Escape a character list. -/
def escapeList : List Char → List Char
  | [] => []
  | c :: cs => escapeChar c ++ escapeList cs

/-- A JSON string literal: quote, escaped body, quote. -/
def quoteChars (s : List Char) : List Char :=
  '"' :: (escapeList s ++ ['"'])

/-- Decimal digit character of a digit value. -/
def dChar (d : Nat) : Char := Char.ofNat (48 + d)

/-- Decimal digits of a natural number, most significant first. -/
def natChars (n : Nat) : List Char :=
  if n = 0 then ['0'] else ((Nat.digits 10 n).map dChar).reverse

/-- Decimal rendering of an integer, as `JSON.stringify` emits it. -/
def intChars (n : Int) : List Char :=
  if n < 0 then '-' :: natChars n.natAbs else natChars n.natAbs

/-- The characters of the `null` keyword. -/
def nullChars : List Char := ['n', 'u', 'l', 'l']

/-- The characters of the `true` keyword. -/
def trueChars : List Char := ['t', 'r', 'u', 'e']

/-- The characters of the `false` keyword. -/
def falseChars : List Char := ['f', 'a', 'l', 's', 'e']

mutual

/-- `JSON.stringify` of a JSON value, over `List Char`. -/
def strJ : Json → List Char
  | .null => nullChars
  | .bool true => trueChars
  | .bool false => falseChars
  | .num n => intChars n
  | .str s => quoteChars s.data
  | .arr items => '[' :: strIs items
  | .obj fields => '\x7b' :: strFs fields

/-- Array elements followed by the closing bracket. -/
def strIs : JItems → List Char
  | .nil => [']']
  | .cons j .nil => strJ j ++ [']']
  | .cons j (.cons j2 t) => strJ j ++ ',' :: strIs (.cons j2 t)

/-- Object fields followed by the closing brace. -/
def strFs : JFields → List Char
  | .nil => ['\x7d']
  | .cons k v .nil => quoteChars k.data ++ ':' :: (strJ v ++ ['\x7d'])
  | .cons k v (.cons k2 v2 t) =>
      quoteChars k.data ++ ':' :: (strJ v ++ ',' :: strFs (.cons k2 v2 t))

end

/-- `JSON.stringify`, at `String` type. -/
def jsonStringify (j : Json) : String := ⟨strJ j⟩

/-! ## JSON.parse

A recursive-descent parser over `List Char`.  The value/element/field layers
run on a fuel budget (any budget at least the nesting size works; the
top-level wrapper uses the input length, which always suffices). -/

/-- Is `c` a decimal digit? -/
def isDigitChar (c : Char) : Bool := 48 ≤ c.toNat && c.toNat ≤ 57

/-- Digit value of a decimal digit character. -/
def dval (c : Char) : Nat := c.toNat - 48

/-- Value of a hex digit character, if it is one. -/
def hexVal (c : Char) : Option Nat :=
  if 48 ≤ c.toNat ∧ c.toNat ≤ 57 then some (c.toNat - 48)
  else if 97 ≤ c.toNat ∧ c.toNat ≤ 102 then some (c.toNat - 87)
  else if 65 ≤ c.toNat ∧ c.toNat ≤ 70 then some (c.toNat - 55)
  else none

/-- Consume a run of decimal digits, extending the accumulator. -/
def parseDigits : List Char → Nat → Nat × List Char
  | [], acc => (acc, [])
  | c :: cs, acc =>
      if isDigitChar c then parseDigits cs (acc * 10 + dval c) else (acc, c :: cs)

/-- Decode one escape-shorthand character after a backslash. -/
def unescChar (e : Char) : Option Char :=
  if e = '"' then some '"'
  else if e = '\\' then some '\\'
  else if e = '/' then some '/'
  else if e = 'b' then some (Char.ofNat 8)
  else if e = 'f' then some (Char.ofNat 12)
  else if e = 'n' then some '\n'
  else if e = 'r' then some '\r'
  else if e = 't' then some '\t'
  else none

/-- Decode the four hex digits of a `\uXXXX` escape. -/
def uDecode (h1 h2 h3 h4 : Char) : Option Char := do
  let a ← hexVal h1
  let b ← hexVal h2
  let c ← hexVal h3
  let d ← hexVal h4
  pure (Char.ofNat (((a * 16 + b) * 16 + c) * 16 + d))

/-- Parse the body of a JSON string literal (after the opening quote), up to
and including the closing quote; returns the decoded characters and the rest
of the input. -/
def parseStringBody : List Char → Option (List Char × List Char)
  | [] => none
  | c :: rest =>
      if c = '"' then some ([], rest)
      else if c = '\\' then
        match rest with
        | [] => none
        | e :: rest2 =>
            if e = 'u' then
              match rest2 with
              | h1 :: h2 :: h3 :: h4 :: rest3 =>
                  match uDecode h1 h2 h3 h4 with
                  | some u =>
                      (parseStringBody rest3).map (fun p => (u :: p.1, p.2))
                  | none => none
              | _ => none
            else
              match unescChar e with
              | some u => (parseStringBody rest2).map (fun p => (u :: p.1, p.2))
              | none => none
      else if c.toNat < 32 then none
      else (parseStringBody rest).map (fun p => (c :: p.1, p.2))

mutual

/-- Parse one JSON value. -/
def parseJ : Nat → List Char → Option (Json × List Char)
  | 0, _ => none
  | _ + 1, [] => none
  | fuel + 1, c :: rest =>
      if c = 'n' then
        match rest with
        | 'u' :: 'l' :: 'l' :: r => some (.null, r)
        | _ => none
      else if c = 't' then
        match rest with
        | 'r' :: 'u' :: 'e' :: r => some (.bool true, r)
        | _ => none
      else if c = 'f' then
        match rest with
        | 'a' :: 'l' :: 's' :: 'e' :: r => some (.bool false, r)
        | _ => none
      else if c = '"' then
        (parseStringBody rest).map (fun p => (.str ⟨p.1⟩, p.2))
      else if c = '[' then
        (parseIs fuel rest).map (fun p => (.arr p.1, p.2))
      else if c = '\x7b' then
        (parseFs fuel rest).map (fun p => (.obj p.1, p.2))
      else if c = '-' then
        match rest with
        | d :: rest2 =>
            if isDigitChar d then
              let p := parseDigits rest2 (dval d)
              some (.num (-(p.1 : Int)), p.2)
            else none
        | [] => none
      else if isDigitChar c then
        let p := parseDigits rest (dval c)
        some (.num (p.1 : Int), p.2)
      else none

/-- Parse array elements up to and including the closing bracket. -/
def parseIs : Nat → List Char → Option (JItems × List Char)
  | 0, _ => none
  | _ + 1, [] => none
  | fuel + 1, c :: rest =>
      if c = ']' then some (.nil, rest)
      else
        match parseJ fuel (c :: rest) with
        | none => none
        | some (j, r) =>
            match r with
            | [] => none
            | c2 :: r2 =>
                if c2 = ',' then
                  (parseIs fuel r2).map (fun p => (.cons j p.1, p.2))
                else if c2 = ']' then some (.cons j .nil, r2)
                else none

/-- Parse object fields up to and including the closing brace. -/
def parseFs : Nat → List Char → Option (JFields × List Char)
  | 0, _ => none
  | _ + 1, [] => none
  | fuel + 1, c :: rest =>
      if c = '\x7d' then some (.nil, rest)
      else if c = '"' then
        match parseStringBody rest with
        | none => none
        | some (key, r1) =>
            match r1 with
            | [] => none
            | c1 :: r2 =>
                if c1 = ':' then
                  match parseJ fuel r2 with
                  | none => none
                  | some (v, r3) =>
                      match r3 with
                      | [] => none
                      | c3 :: r4 =>
                          if c3 = ',' then
                            (parseFs fuel r4).map
                              (fun p => (.cons ⟨key⟩ v p.1, p.2))
                          else if c3 = '\x7d' then
                            some (.cons ⟨key⟩ v .nil, r4)
                          else none
                else none
      else none

end

/-- `JSON.parse`, at `String` type: parse one value consuming the whole
input (`none` models a thrown `SyntaxError`). -/
def jsonParse (s : String) : Option Json :=
  match parseJ (s.data.length + 1) s.data with
  | some (j, []) => some j
  | _ => none

/-! ## The stringify/parse round trip -/

theorem char_eq_ofNat {c : Char} {n : Nat} (h : c.toNat = n) : c = Char.ofNat n := by
  rw [← h, Char.ofNat_toNat]

theorem uDecode_hex : ∀ t < 32,
    uDecode '0' '0' (hexChar (t / 16)) (hexChar (t % 16)) = some (Char.ofNat t) := by
  decide

/-- Unquoting inverts quoting: the string-body parser undoes `escapeList`. -/
theorem parseStringBody_escape (s : List Char) :
    ∀ rest, parseStringBody (escapeList s ++ '"' :: rest) = some (s, rest) := by
  induction s with
  | nil =>
    intro rest
    unfold parseStringBody
    simp [escapeList]
  | cons c cs ih =>
    intro rest
    by_cases h1 : c = '"'
    · subst h1
      simp only [escapeList, escapeChar, if_true, List.cons_append, List.nil_append]
      unfold parseStringBody
      simp [unescChar, ih]
    · by_cases h2 : c = '\\'
      · subst h2
        simp only [escapeList, escapeChar, if_true, if_false, List.cons_append,
          List.nil_append, reduceIte]
        unfold parseStringBody
        simp [unescChar, ih]
      · by_cases h3 : c.toNat = 8
        · have hc := char_eq_ofNat h3
          simp only [escapeList, escapeChar, h1, h2, h3, if_true, if_false,
            List.cons_append, List.nil_append, reduceIte]
          unfold parseStringBody
          simp [unescChar, ih]
          exact hc.symm
        · by_cases h4 : c.toNat = 9
          · have hc := char_eq_ofNat h4
            have h9 : Char.ofNat 9 = '\t' := by decide
            rw [h9] at hc
            simp only [escapeList, escapeChar, h1, h2, h3, h4, if_true, if_false,
              List.cons_append, List.nil_append, reduceIte]
            unfold parseStringBody
            simp [unescChar, ih]
            exact hc.symm
          · by_cases h5 : c.toNat = 10
            · have hc := char_eq_ofNat h5
              have h10 : Char.ofNat 10 = '\n' := by decide
              rw [h10] at hc
              simp only [escapeList, escapeChar, h1, h2, h3, h4, h5, if_true, if_false,
                List.cons_append, List.nil_append, reduceIte]
              unfold parseStringBody
              simp [unescChar, ih]
              exact hc.symm
            · by_cases h6 : c.toNat = 12
              · have hc := char_eq_ofNat h6
                simp only [escapeList, escapeChar, h1, h2, h3, h4, h5, h6, if_true, if_false,
                  List.cons_append, List.nil_append, reduceIte]
                unfold parseStringBody
                simp [unescChar, ih]
                exact hc.symm
              · by_cases h7 : c.toNat = 13
                · have hc := char_eq_ofNat h7
                  have h13 : Char.ofNat 13 = '\r' := by decide
                  rw [h13] at hc
                  simp only [escapeList, escapeChar, h1, h2, h3, h4, h5, h6, h7, if_true,
                    if_false, List.cons_append, List.nil_append, reduceIte]
                  unfold parseStringBody
                  simp [unescChar, ih]
                  exact hc.symm
                · by_cases h8 : c.toNat < 32
                  · have hu := uDecode_hex c.toNat h8
                    rw [Char.ofNat_toNat] at hu
                    simp only [escapeList, escapeChar, h1, h2, h3, h4, h5, h6, h7, h8,
                      if_true, if_false, List.cons_append, List.nil_append, reduceIte]
                    unfold parseStringBody
                    simp [hu, ih]
                  · have hq : ¬ c = '"' := h1
                    have hb : ¬ c = '\\' := h2
                    simp only [escapeList, escapeChar, h1, h2, h3, h4, h5, h6, h7, h8,
                      if_true, if_false, List.cons_append, List.nil_append, reduceIte]
                    unfold parseStringBody
                    simp [hq, hb, h8, ih]

/-- `rest` does not begin with a decimal digit (so a digit run before it
stops exactly at `rest`). -/
def notDigitStart (rest : List Char) : Prop :=
  ∀ d, rest.head? = some d → isDigitChar d = false

theorem notDigitStart_nil : notDigitStart [] := by
  intro d h
  simp at h

theorem parseDigits_spec (ds : List Char) :
    ∀ (acc : Nat) (rest : List Char), (∀ c ∈ ds, isDigitChar c = true) →
      notDigitStart rest →
      parseDigits (ds ++ rest) acc =
        (ds.foldl (fun a c => a * 10 + dval c) acc, rest) := by
  induction ds with
  | nil =>
    intro acc rest _ hrest
    cases rest with
    | nil => simp [parseDigits]
    | cons d r =>
      have := hrest d (by simp)
      simp [parseDigits, this]
  | cons c cs ih =>
    intro acc rest hds hrest
    have hc := hds c (by simp)
    simp only [List.cons_append, parseDigits, hc, if_true, List.foldl_cons]
    exact ih _ rest (fun x hx => hds x (by simp [hx])) hrest

theorem dChar_digit : ∀ d < 10, isDigitChar (dChar d) = true ∧ dval (dChar d) = d := by
  decide

theorem natChars_spec (n : Nat) :
    natChars n ≠ [] ∧ (∀ c ∈ natChars n, isDigitChar c = true) ∧
      (natChars n).foldl (fun a c => a * 10 + dval c) 0 = n := by
  by_cases h0 : n = 0
  · subst h0; refine ⟨by simp [natChars], ?_, by simp [natChars]; decide⟩
    intro c hc
    simp [natChars] at hc
    subst hc; decide
  · have hdig : ∀ d ∈ Nat.digits 10 n, d < 10 := fun d hd =>
      Nat.digits_lt_base (by norm_num) hd
    have hne : Nat.digits 10 n ≠ [] := Nat.digits_ne_nil_iff_ne_zero.mpr h0
    refine ⟨?_, ?_, ?_⟩
    · simp [natChars, h0, hne]
    · intro c hc
      simp only [natChars, h0, if_false, List.mem_reverse, List.mem_map] at hc
      obtain ⟨d, hd, rfl⟩ := hc
      exact (dChar_digit d (hdig d hd)).1
    · have horner : ∀ L : List Nat, (∀ d ∈ L, d < 10) →
          L.foldr (fun d a => a * 10 + d) 0 = Nat.ofDigits 10 L := by
        intro L
        induction L with
        | nil => intro; simp [Nat.ofDigits]
        | cons d t iht =>
          intro hL
          rw [List.foldr_cons, iht (fun x hx => hL x (by simp [hx])), Nat.ofDigits_cons]
          ring
      have hmap : ∀ L : List Nat, (∀ d ∈ L, d < 10) →
          (L.map dChar).foldr (fun c a => a * 10 + dval c) 0 =
            L.foldr (fun d a => a * 10 + d) 0 := by
        intro L
        induction L with
        | nil => intro; simp
        | cons d t iht =>
          intro hL
          rw [List.map_cons, List.foldr_cons, List.foldr_cons,
            iht (fun x hx => hL x (by simp [hx])), (dChar_digit d (hL d (by simp))).2]
      calc (natChars n).foldl (fun a c => a * 10 + dval c) 0
          = ((Nat.digits 10 n).map dChar).reverse.foldl (fun a c => a * 10 + dval c) 0 := by
            simp [natChars, h0]
        _ = ((Nat.digits 10 n).map dChar).foldr (fun c a => a * 10 + dval c) 0 :=
            List.foldl_reverse _ _ _
        _ = (Nat.digits 10 n).foldr (fun d a => a * 10 + d) 0 := hmap _ hdig
        _ = Nat.ofDigits 10 (Nat.digits 10 n) := horner _ hdig
        _ = n := Nat.ofDigits_digits 10 n

theorem digit_facts {c : Char} (h : isDigitChar c = true) :
    c ≠ 'n' ∧ c ≠ 't' ∧ c ≠ 'f' ∧ c ≠ '"' ∧ c ≠ '[' ∧ c ≠ '\x7b' ∧ c ≠ '-' ∧
      c ≠ ']' ∧ c ≠ ',' ∧ c ≠ '\x7d' ∧ c ≠ ':' := by
  refine ⟨?_, ?_, ?_, ?_, ?_, ?_, ?_, ?_, ?_, ?_, ?_⟩ <;>
    · rintro rfl
      exact absurd h (by decide)

theorem notDigitStart_cons {c : Char} (h : isDigitChar c = false) (rest : List Char) :
    notDigitStart (c :: rest) := by
  intro d hd
  simp at hd
  subst hd
  exact h

/-- Every `JSON.stringify` output is nonempty and does not begin with a
closing bracket (or any other list/object punctuation). -/
theorem strJ_head (j : Json) : ∃ c cs, strJ j = c :: cs ∧ c ≠ ']' := by
  cases j with
  | null => exact ⟨'n', _, rfl, by decide⟩
  | bool b =>
    cases b with
    | false => exact ⟨'f', ['a', 'l', 's', 'e'], rfl, by decide⟩
    | true => exact ⟨'t', ['r', 'u', 'e'], rfl, by decide⟩
  | num n =>
    obtain ⟨hne, hdigs, _⟩ := natChars_spec n.natAbs
    obtain ⟨c, cs, hcc⟩ := List.exists_cons_of_ne_nil hne
    by_cases hn : n < 0
    · exact ⟨'-', natChars n.natAbs, by simp [strJ, intChars, hn], by decide⟩
    · refine ⟨c, cs, by simp [strJ, intChars, hn, hcc], ?_⟩
      exact (digit_facts (hdigs c (by simp [hcc]))).2.2.2.2.2.2.2.1
  | str s => exact ⟨'"', _, rfl, by decide⟩
  | arr items => exact ⟨'[', _, rfl, by decide⟩
  | obj fields => exact ⟨'\x7b', _, rfl, by decide⟩

theorem strJ_pos (j : Json) : 1 ≤ (strJ j).length := by
  obtain ⟨c, cs, hcc, _⟩ := strJ_head j
  simp [hcc]

mutual

/-- Parser fuel needed for one value. -/
def jfuel : Json → Nat
  | .arr items => ifuel items + 1
  | .obj fields => ffuel fields + 1
  | _ => 1

/-- Parser fuel needed for an element list. -/
def ifuel : JItems → Nat
  | .nil => 1
  | .cons j t => max (jfuel j) (ifuel t) + 1

/-- Parser fuel needed for a field list. -/
def ffuel : JFields → Nat
  | .nil => 1
  | .cons _ v t => max (jfuel v) (ffuel t) + 1

end

theorem jfuel_pos (j : Json) : 1 ≤ jfuel j := by
  cases j <;> simp [jfuel]

mutual

theorem jfuel_le : ∀ j : Json, jfuel j ≤ (strJ j).length
  | .null => by simp [jfuel, strJ, nullChars]
  | .bool b => by cases b <;> simp [jfuel, strJ, trueChars, falseChars]
  | .num n => by
      have := strJ_pos (.num n)
      simp [jfuel]
      omega
  | .str s => by simp [jfuel, strJ, quoteChars]
  | .arr items => by
      have := ifuel_le items
      simp [jfuel, strJ]
      omega
  | .obj fields => by
      have := ffuel_le fields
      simp [jfuel, strJ]
      omega

theorem ifuel_le : ∀ items : JItems, ifuel items ≤ (strIs items).length
  | .nil => by simp [ifuel, strIs]
  | .cons j .nil => by
      have h1 := jfuel_le j
      simp [ifuel, strIs, jfuel_pos j]
      omega
  | .cons j (.cons j2 t) => by
      have h1 := jfuel_le j
      have h2 := ifuel_le (.cons j2 t)
      simp [ifuel, strIs] at h2 ⊢
      omega

theorem ffuel_le : ∀ fields : JFields, ffuel fields ≤ (strFs fields).length
  | .nil => by simp [ffuel, strFs]
  | .cons k v .nil => by
      have h1 := jfuel_le v
      simp [ffuel, strFs, quoteChars]
      omega
  | .cons k v (.cons k2 v2 t) => by
      have h1 := jfuel_le v
      have h2 := ffuel_le (.cons k2 v2 t)
      simp [ffuel, strFs, quoteChars] at h2 ⊢
      omega

end

theorem mk_data (s : String) : String.mk s.data = s := rfl

set_option maxRecDepth 4000

mutual

/-- The parser undoes the stringifier on any value, with enough fuel, in
front of any remaining input that does not begin with a digit. -/
theorem parseJ_strJ : ∀ (j : Json) (fuel : Nat) (rest : List Char),
    jfuel j ≤ fuel → notDigitStart rest →
    parseJ fuel (strJ j ++ rest) = some (j, rest)
  | .null, fuel, rest => by
      intro hfuel hrest
      obtain ⟨f, rfl⟩ : ∃ f, fuel = f + 1 := ⟨fuel - 1, by simp [jfuel] at hfuel; omega⟩
      simp only [strJ, nullChars, List.cons_append, List.nil_append]
      rw [parseJ]
      simp
  | .bool b, fuel, rest => by
      intro hfuel hrest
      obtain ⟨f, rfl⟩ : ∃ f, fuel = f + 1 := ⟨fuel - 1, by simp [jfuel] at hfuel; omega⟩
      cases b <;>
        · simp only [strJ, trueChars, falseChars, List.cons_append, List.nil_append]
          rw [parseJ]
          simp
  | .str s, fuel, rest => by
      intro hfuel hrest
      obtain ⟨f, rfl⟩ : ∃ f, fuel = f + 1 := ⟨fuel - 1, by simp [jfuel] at hfuel; omega⟩
      simp only [strJ, quoteChars, List.cons_append, List.append_assoc,
        List.singleton_append]
      simp only [parseJ]
      simp [parseStringBody_escape, mk_data]
  | .num n, fuel, rest => by
      intro hfuel hrest
      obtain ⟨f, rfl⟩ : ∃ f, fuel = f + 1 := ⟨fuel - 1, by simp [jfuel] at hfuel; omega⟩
      obtain ⟨hne, hdigs, hval⟩ := natChars_spec n.natAbs
      obtain ⟨c, cs, hcc⟩ := List.exists_cons_of_ne_nil hne
      have hdc : isDigitChar c = true := hdigs c (by simp [hcc])
      have hPD : parseDigits (cs ++ rest) (dval c) = (n.natAbs, rest) := by
        rw [parseDigits_spec cs (dval c) rest (fun x hx => hdigs x (by simp [hcc, hx]))
          hrest]
        have h0 : (c :: cs).foldl (fun a x => a * 10 + dval x) 0 = n.natAbs := hcc ▸ hval
        simp at h0
        rw [h0]
      by_cases hn : n < 0
      · have hstr : strJ (.num n) = '-' :: natChars n.natAbs := by
          simp [strJ, intChars, hn]
        rw [hstr, hcc, List.cons_append, List.cons_append]
        simp only [parseJ]
        have habs : -(↑n.natAbs : Int) = n := by omega
        simp +decide only [hdc, hPD, if_true, if_false, habs]
      · obtain ⟨hn1, hn2, hn3, hn4, hn5, hn6, hn7, _, _, _, _⟩ := digit_facts hdc
        have hstr : strJ (.num n) = natChars n.natAbs := by simp [strJ, intChars, hn]
        rw [hstr, hcc, List.cons_append]
        simp only [parseJ]
        have habs : (↑n.natAbs : Int) = n := by omega
        simp +decide only [hn1, hn2, hn3, hn4, hn5, hn6, hn7, hdc, hPD, if_true,
          if_false, habs]
  | .arr items, fuel, rest => by
      intro hfuel hrest
      obtain ⟨f, rfl⟩ : ∃ f, fuel = f + 1 :=
        ⟨fuel - 1, by simp [jfuel] at hfuel; omega⟩
      have hi : ifuel items ≤ f := by simp [jfuel] at hfuel; omega
      simp only [strJ, List.cons_append]
      simp only [parseJ]
      rw [parseIs_strIs items f rest hi]
      simp
  | .obj fields, fuel, rest => by
      intro hfuel hrest
      obtain ⟨f, rfl⟩ : ∃ f, fuel = f + 1 :=
        ⟨fuel - 1, by simp [jfuel] at hfuel; omega⟩
      have hi : ffuel fields ≤ f := by simp [jfuel] at hfuel; omega
      simp only [strJ, List.cons_append]
      simp only [parseJ]
      rw [parseFs_strFs fields f rest hi]
      simp
  termination_by j => sizeOf j

/-- The element-list parser undoes the element-list stringifier. -/
theorem parseIs_strIs : ∀ (items : JItems) (fuel : Nat) (rest : List Char),
    ifuel items ≤ fuel →
    parseIs fuel (strIs items ++ rest) = some (items, rest)
  | .nil, fuel, rest => by
      intro hfuel
      obtain ⟨f, rfl⟩ : ∃ f, fuel = f + 1 := ⟨fuel - 1, by simp [ifuel] at hfuel; omega⟩
      simp only [strIs, List.cons_append, List.nil_append]
      rw [parseIs]
      simp
  | .cons j .nil, fuel, rest => by
      intro hfuel
      obtain ⟨f, rfl⟩ : ∃ f, fuel = f + 1 := ⟨fuel - 1, by simp [ifuel] at hfuel; omega⟩
      have hj : jfuel j ≤ f := by simp [ifuel] at hfuel; omega
      obtain ⟨c, cs, hcc, hcne⟩ := strJ_head j
      simp only [strIs, List.append_assoc, List.singleton_append]
      rw [hcc, List.cons_append]
      simp only [parseIs, if_neg hcne]
      rw [← List.cons_append, ← hcc,
        parseJ_strJ j f (']' :: rest) hj (notDigitStart_cons (by decide) rest)]
      simp
  | .cons j (.cons j2 t2), fuel, rest => by
      intro hfuel
      obtain ⟨f, rfl⟩ : ∃ f, fuel = f + 1 := ⟨fuel - 1, by simp [ifuel] at hfuel; omega⟩
      have hj : jfuel j ≤ f := by simp [ifuel] at hfuel; omega
      have ht : ifuel (.cons j2 t2) ≤ f := by simp [ifuel] at hfuel ⊢; omega
      obtain ⟨c, cs, hcc, hcne⟩ := strJ_head j
      simp only [strIs, List.append_assoc, List.cons_append]
      rw [hcc, List.cons_append]
      simp only [parseIs, if_neg hcne]
      rw [← List.cons_append, ← hcc,
        parseJ_strJ j f (',' :: (strIs (.cons j2 t2) ++ rest)) hj
          (notDigitStart_cons (by decide) _)]
      simp +decide only [if_true, if_false]
      rw [parseIs_strIs (.cons j2 t2) f rest ht]
      simp
  termination_by items => sizeOf items

/-- The field-list parser undoes the field-list stringifier. -/
theorem parseFs_strFs : ∀ (fields : JFields) (fuel : Nat) (rest : List Char),
    ffuel fields ≤ fuel →
    parseFs fuel (strFs fields ++ rest) = some (fields, rest)
  | .nil, fuel, rest => by
      intro hfuel
      obtain ⟨f, rfl⟩ : ∃ f, fuel = f + 1 := ⟨fuel - 1, by simp [ffuel] at hfuel; omega⟩
      simp only [strFs, List.cons_append, List.nil_append]
      rw [parseFs]
      simp
  | .cons k v .nil, fuel, rest => by
      intro hfuel
      obtain ⟨f, rfl⟩ : ∃ f, fuel = f + 1 := ⟨fuel - 1, by simp [ffuel] at hfuel; omega⟩
      have hv : jfuel v ≤ f := by simp [ffuel] at hfuel; omega
      simp only [strFs, quoteChars, List.cons_append, List.append_assoc,
        List.singleton_append]
      simp only [parseFs]
      rw [parseStringBody_escape]
      simp +decide only [if_true, if_false, List.nil_append]
      rw [parseJ_strJ v f ('\x7d' :: rest) hv (notDigitStart_cons (by decide) rest)]
      simp [mk_data]
  | .cons k v (.cons k2 v2 t2), fuel, rest => by
      intro hfuel
      obtain ⟨f, rfl⟩ : ∃ f, fuel = f + 1 := ⟨fuel - 1, by simp [ffuel] at hfuel; omega⟩
      have hv : jfuel v ≤ f := by simp [ffuel] at hfuel; omega
      have ht : ffuel (.cons k2 v2 t2) ≤ f := by simp [ffuel] at hfuel ⊢; omega
      simp only [strFs, quoteChars, List.cons_append, List.append_assoc,
        List.singleton_append]
      simp only [parseFs]
      rw [parseStringBody_escape]
      simp +decide only [if_true, if_false, List.nil_append]
      rw [parseJ_strJ v f (',' :: (strFs (.cons k2 v2 t2) ++ rest)) hv
          (notDigitStart_cons (by decide) _)]
      simp +decide only [if_true, if_false]
      rw [parseFs_strFs (.cons k2 v2 t2) f rest ht]
      simp [mk_data]
  termination_by fields => sizeOf fields

end

/-- The JSON round trip: parsing a stringified value returns the value. -/
theorem jsonParse_stringify (j : Json) : jsonParse (jsonStringify j) = some j := by
  have hlen : jfuel j ≤ (strJ j).length + 1 := le_trans (jfuel_le j) (by omega)
  have h := parseJ_strJ j ((strJ j).length + 1) [] hlen notDigitStart_nil
  rw [List.append_nil] at h
  simp only [jsonParse, jsonStringify, h]

/-! ## JS value semantics

Property access, indexing, truthiness, strict equality against literals and
template-literal coercion, as the worker's untyped handler code uses them.
`Option Json` is a possibly-`undefined` JS value (`none` = `undefined`);
`Except.error ()` is a thrown `TypeError`. -/

/-- Last-binding lookup in an object's field list (later JS assignments win). -/
def JFields.lookup : JFields → String → Option Json
  | .nil, _ => none
  | .cons k v t, key =>
      match JFields.lookup t key with
      | some r => some r
      | none => if k = key then some v else none

/-- The `i`-th element of a JSON array. -/
def JItems.get? : JItems → Nat → Option Json
  | .nil, _ => none
  | .cons j _, 0 => some j
  | .cons _ t, n + 1 => JItems.get? t n

/-- The elements of a JSON array, as a Lean list. -/
def JItems.toList : JItems → List Json
  | .nil => []
  | .cons j t => j :: JItems.toList t

/-- A JSON array from a Lean list. -/
def jitemsOf : List Json → JItems
  | [] => .nil
  | j :: t => .cons j (jitemsOf t)

/-- JS property access `v.key`: a `TypeError` on `undefined` and `null`, key
lookup on objects, `undefined` on the other primitives (none of whose
built-in properties this worker reads by name). -/
def jsGet (v : Option Json) (key : String) : Except Unit (Option Json) :=
  match v with
  | none => .error ()
  | some .null => .error ()
  | some (.obj fields) => .ok (fields.lookup key)
  | some _ => .ok none

/-- JS indexing `v[i]` with a numeric index. -/
def jsIndex (v : Option Json) (i : Nat) : Except Unit (Option Json) :=
  match v with
  | none => .error ()
  | some .null => .error ()
  | some (.arr items) => .ok (items.get? i)
  | some (.obj fields) => .ok (fields.lookup (toString i))
  | some _ => .ok none

/-- JS truthiness of a possibly-undefined JSON value. -/
def jsTruthy : Option Json → Bool
  | none => false
  | some .null => false
  | some (.bool b) => b
  | some (.num n) => decide (n ≠ 0)
  | some (.str s) => decide (s ≠ "")
  | some (.arr _) => true
  | some (.obj _) => true

/-- JS strict equality `v === lit` against a string literal. -/
def jsEqStr (v : Option Json) (lit : String) : Bool :=
  match v with
  | some (.str s) => s = lit
  | _ => false

mutual

/-- JS string coercion `String(v)` of a defined JSON value. -/
def jsToString : Json → String
  | .null => "null"
  | .bool true => "true"
  | .bool false => "false"
  | .num n => ⟨intChars n⟩
  | .str s => s
  | .arr items => arrJoin items
  | .obj _ => "[object Object]"

/-- `Array.prototype.toString`: comma-joined element coercions, `null`
elements rendered empty. -/
def arrJoin : JItems → String
  | .nil => ""
  | .cons j .nil => if j = .null then "" else jsToString j
  | .cons j (.cons j2 t) =>
      (if j = .null then "" else jsToString j) ++ "," ++ arrJoin (.cons j2 t)

end

/-- Template-literal interpolation of a possibly-undefined value. -/
def jsTemplate : Option Json → String
  | none => "undefined"
  | some j => jsToString j

/-! ## The worker's data model (src/types.ts) -/

/-- `ButtonConfig` (types.ts): a required label, an optional field name, an
optional value.  The value is kept as a raw JSON value (the source types it
`value?: string | any`). -/
structure ButtonConfig where
  label : String
  field : Option String := none
  value : Option Json := none
  deriving DecidableEq

/-- `AirtableRecord` (types.ts): record id and fields.  Field values are
kept as strings: the renderer's `value as string` cast means non-string
values reach `String.replace` through JS string coercion, so the coerced
string is the value that matters to the worker. -/
structure AirtableRecord where
  id : String
  fields : List (String × String)
  deriving DecidableEq

/-- `Config` (types.ts). -/
structure Config where
  slackChannelIds : List String
  messageTemplate : String
  primaryButton : Option ButtonConfig := none
  secondaryButton : Option ButtonConfig := none
  deriving DecidableEq

/-- `SlackPayload` (types.ts): fallback text plus blocks (blocks kept as raw
JSON, as the source types them `any[]`). -/
structure SlackPayload where
  text : String
  blocks : List Json
  deriving DecidableEq

/-- The payload produced by `formatUpdatedMessage`: the original fallback
text (whatever JSON value the incoming payload carried) and the rewritten
block list. -/
structure UpdatedMessage where
  text : Option Json
  blocks : List Json
  deriving DecidableEq

/-- Outbound platform calls issued by the worker. -/
inductive Effect where
  | postMessage (channelId : String) (message : SlackPayload) : Effect
  | patchRecord (recordId : Option Json) (fieldName : Json) (newValue : Json) : Effect
  | updateMessage (channelId ts : Option Json) (message : UpdatedMessage) : Effect
  deriving DecidableEq

/-- HTTP response: status and body. -/
structure HttpResponse where
  status : Nat
  body : String
  deriving DecidableEq

/-! ## JS String.prototype.replace with a string pattern -/

/-- Split at the first occurrence of `pat`: `some (pre, post)` with
`s = pre ++ pat ++ post` and `pre` shortest; `none` when `pat` does not
occur. -/
def firstSplit (pat : List Char) : List Char → Option (List Char × List Char)
  | [] => if pat.isPrefixOf [] then some ([], []) else none
  | c :: s =>
      if pat.isPrefixOf (c :: s) then some ([], (c :: s).drop pat.length)
      else (firstSplit pat s).map (fun p => (c :: p.1, p.2))

/-- ES `GetSubstitution` as `String.prototype.replace` applies it to a string
replacement with a string search value (no capture groups): in the
replacement, `$$` yields `$`, `$&` yields the matched substring, `$`
followed by the backquote character (U+0060) yields the portion of the
subject string preceding the match, `$` followed by the single-quote
character (U+0027) yields the portion following the match; every other `$`
sequence — `$1`..`$99` (a string pattern supplies no captures), `$<`, a
trailing `$` — is kept verbatim. -/
def getSubstitution (matched pre post : List Char) : List Char → List Char
  | [] => []
  | [c] => [c]
  | c :: d :: rest =>
      if c = '$' then
        if d = '$' then '$' :: getSubstitution matched pre post rest
        else if d = '&' then matched ++ getSubstitution matched pre post rest
        else if d = Char.ofNat 96 then pre ++ getSubstitution matched pre post rest
        else if d = Char.ofNat 39 then post ++ getSubstitution matched pre post rest
        else c :: getSubstitution matched pre post (d :: rest)
      else c :: getSubstitution matched pre post (d :: rest)

/-- JS `String.prototype.replace` with string arguments: replace the first
occurrence of `pat` (only the first — JS replaces all occurrences only for
regex patterns with the `g` flag) by the `GetSubstitution`-expansion of the
replacement, leave the string unchanged when `pat` does not occur. -/
def replaceFirst (pat repl s : List Char) : List Char :=
  match firstSplit pat s with
  | none => s
  | some (pre, post) => pre ++ getSubstitution pat pre post repl ++ post

/-- `text.replace(pat, repl)`, at `String` type. -/
def jsReplace (text pat repl : String) : String :=
  ⟨replaceFirst pat.data repl.data text.data⟩

/-- The template-substitution loop of `formatSlackMessage`: one
`text = text.replace('\x7b' + key + '\x7d', value)` per field, in field
order. -/
def renderTemplate (template : String) (fields : List (String × String)) : String :=
  fields.foldl (fun text kv => jsReplace text ("\x7b" ++ kv.1 ++ "\x7d") kv.2) template

/-! ## formatSlackMessage (the notify-side renderer) -/

/-- The `mrkdwn` section block holding the rendered text. -/
def sectionBlock (text : String) : Json :=
  .obj (.cons "type" (.str "section")
    (.cons "text"
      (.obj (.cons "type" (.str "mrkdwn") (.cons "text" (.str text) .nil))) .nil))

/-- The JSON object a `ButtonConfig` presents to `JSON.stringify`
(`stringify` omits properties whose value is `undefined`, so absent
optionals produce no key). -/
def bcJson (bc : ButtonConfig) : Json :=
  .obj (.cons "label" (.str bc.label)
    (match bc.field, bc.value with
     | none, none => .nil
     | some f, none => .cons "field" (.str f) .nil
     | none, some v => .cons "value" v .nil
     | some f, some v => .cons "field" (.str f) (.cons "value" v .nil)))

/-- The encoded button context `{recordId, buttonConfig}` that
`formatSlackMessage` serializes into each control's `value`. -/
def contextJson (recordId : String) (bc : ButtonConfig) : Json :=
  .obj (.cons "recordId" (.str recordId)
    (.cons "buttonConfig" (bcJson bc) .nil))

/-- The primary button element (style `primary`, action id
`primary_action`). -/
def primaryButtonJson (recordId : String) (bc : ButtonConfig) : Json :=
  .obj (.cons "type" (.str "button")
    (.cons "style" (.str "primary")
    (.cons "text" (.obj (.cons "type" (.str "plain_text")
                  (.cons "text" (.str bc.label)
                  (.cons "emoji" (.bool true) .nil))))
    (.cons "value" (.str (jsonStringify (contextJson recordId bc)))
    (.cons "action_id" (.str "primary_action") .nil)))))

/-- The secondary button element (no style, action id `secondary_action`). -/
def secondaryButtonJson (recordId : String) (bc : ButtonConfig) : Json :=
  .obj (.cons "type" (.str "button")
    (.cons "text" (.obj (.cons "type" (.str "plain_text")
                  (.cons "text" (.str bc.label)
                  (.cons "emoji" (.bool true) .nil))))
    (.cons "value" (.str (jsonStringify (contextJson recordId bc)))
    (.cons "action_id" (.str "secondary_action") .nil))))

/-- The trailing actions block. -/
def actionsBlockOf (elements : List Json) : Json :=
  .obj (.cons "type" (.str "actions")
    (.cons "elements" (.arr (jitemsOf elements)) .nil))

/-- `formatSlackMessage(record, config)`: substitute the template, build the
section block, push one button element per configured button (the source
tests only `if (config.primaryButton)` / `if (config.secondaryButton)` —
object truthiness, i.e. presence), and append a single actions block when
any element exists. -/
def formatSlackMessage (record : AirtableRecord) (config : Config) : SlackPayload :=
  let text := renderTemplate config.messageTemplate record.fields
  let actionElements :=
    (match config.primaryButton with
     | some pb => [primaryButtonJson record.id pb]
     | none => []) ++
    (match config.secondaryButton with
     | some sb => [secondaryButtonJson record.id sb]
     | none => [])
  let blocks :=
    [sectionBlock text] ++
      (if actionElements.length > 0 then [actionsBlockOf actionElements] else [])
  { text := text, blocks := blocks }

/-! ## handleWebhook (the notify pipeline past authentication) -/

/-- `handleWebhook` after `request.json()` produced a well-typed
`{record, config}` payload (raw-body parsing and the `catch` mapping a
`SyntaxError` to 400 live in `workerFetch`).  `sendOutcome` gives each
channel post's outcome; the posts are all issued (`Promise.allSettled`) and
the outcomes feed only `hasFailures`, both branches of which return 200
`'Webhook processed'`. -/
def handleWebhook (record : AirtableRecord) (config : Config)
    (sendOutcome : String → Bool) : HttpResponse × List Effect :=
  let message := formatSlackMessage record config
  let effects := config.slackChannelIds.map
    (fun channelId => Effect.postMessage channelId message)
  let hasFailures := config.slackChannelIds.any (fun channelId => !sendOutcome channelId)
  if hasFailures then (⟨200, "Webhook processed"⟩, effects)
  else (⟨200, "Webhook processed"⟩, effects)

/-! ## timingSafeEqual, parseInt, isValidSlackRequest -/

/-- `timingSafeEqual(a, b)`: length check, then an OR-accumulated XOR over
the paired character codes. -/
def timingSafeEqual (a b : String) : Bool :=
  if a.data.length ≠ b.data.length then false
  else
    (a.data.zip b.data).foldl (fun r p => r ||| (p.1.toNat ^^^ p.2.toNat)) 0 == 0

/-- Leading digit run of `parseInt` (`none` = no digit, `NaN`). -/
def parseIntPrefix (cs : List Char) : Option Nat :=
  match cs with
  | c :: _ =>
      if isDigitChar c then
        some ((cs.takeWhile isDigitChar).foldl (fun a x => a * 10 + dval x) 0)
      else none
  | [] => none

/-- JS `parseInt(s, 10)`: skip leading whitespace, optional sign, then a
nonempty leading digit run; `none` models `NaN` (and `NaN < x` is false). -/
def parseIntJS (s : String) : Option Int :=
  let cs := s.data.dropWhile fun c => c = ' ' || c = '\t' || c = '\n' || c = '\r'
  match cs with
  | '-' :: rest => (parseIntPrefix rest).map (fun n => -(n : Int))
  | '+' :: rest => (parseIntPrefix rest).map (fun n => (n : Int))
  | rest => (parseIntPrefix rest).map (fun n => (n : Int))

/-- Truthiness of a nullable string (a missing or empty header is falsy). -/
def truthyStr : Option String → Bool
  | none => false
  | some s => s ≠ ""

/-- `isValidSlackRequest`.  `hmac key msg` abstracts the HMAC-SHA256 hex
digest (a host crypto primitive) and `nowMs` abstracts `Date.now()`;
everything else follows the source: reject missing header/body, reject
timestamps older than the five-minute window, else compare
`'v0=' + hex` against the header with `timingSafeEqual`. -/
def isValidSlackRequest (hmac : String → String → String) (nowMs : Nat)
    (timestamp slackSignature : Option String) (body : String)
    (secret : String) : Bool :=
  if !truthyStr timestamp || !truthyStr slackSignature || body = "" then false
  else
    let fiveMinutesAgo : Int := (nowMs / 1000 : Nat) - 60 * 5
    let tooOld :=
      match parseIntJS (timestamp.getD "") with
      | some t => decide (t < fiveMinutesAgo)
      | none => false
    if tooOld then false
    else
      let sigBasestring := "v0:" ++ timestamp.getD "" ++ ":" ++ body
      let expectedSignature := "v0=" ++ hmac secret sigBasestring
      timingSafeEqual (slackSignature.getD "") expectedSignature

/-! ## handleSlackInteraction (the interaction pipeline past authentication) -/

/-- `JSON.parse(v)` for a possibly-non-string argument: JS coerces the
argument to a string first (`undefined` and objects/arrays coerce to strings
that fail to parse here; numbers, booleans and `null` coerce to literals that
re-parse to themselves), then parses. -/
def jsonParseOf (v : Option Json) : Except Unit Json :=
  match v with
  | some (.str s) =>
      match jsonParse s with
      | some j => .ok j
      | none => .error ()
  | some (.num n) => .ok (.num n)
  | some (.bool b) => .ok (.bool b)
  | some .null => .ok .null
  | _ => .error ()

/-- The static acknowledgment block `formatUpdatedMessage` puts in place of
an actions block: a `context` block whose single `mrkdwn` element reads
`*${buttonLabel}* by ${userName}`. -/
def ackBlock (buttonLabel userName : Option Json) : Json :=
  .obj (.cons "type" (.str "context")
    (.cons "elements"
      (.arr (.cons (.obj (.cons "type" (.str "mrkdwn")
        (.cons "text"
          (.str ("*" ++ jsTemplate buttonLabel ++ "* by " ++ jsTemplate userName))
          .nil))) .nil))
      .nil))

/-- `block.type === 'actions'` (`block.type` throws on a `null` block). -/
def blockIsActions (block : Json) : Except Unit Bool :=
  (jsGet (some block) "type").map (fun t => jsEqStr t "actions")

/-- The `blocks.map` callback of `formatUpdatedMessage`, over the block
list: an actions block becomes the acknowledgment block, every other block
is returned unchanged. -/
def mapAck (buttonLabel userName : Option Json) : List Json → Except Unit (List Json)
  | [] => .ok []
  | b :: t => do
      let isAct ← blockIsActions b
      let rest ← mapAck buttonLabel userName t
      pure ((if isAct then ackBlock buttonLabel userName else b) :: rest)

/-- `formatUpdatedMessage(originalMessage, buttonLabel, userName)`: map the
blocks (throws when `originalMessage` is `undefined`/`null` or its `blocks`
is not an array), keep the original fallback `text`. -/
def formatUpdatedMessage (originalMessage : Option Json)
    (buttonLabel userName : Option Json) : Except Unit UpdatedMessage := do
  let blocksV ← jsGet originalMessage "blocks"
  let items ← match blocksV with
    | some (.arr items) => Except.ok items
    | _ => Except.error ()    -- `.map` exists only on arrays
  let updatedBlocks ← mapAck buttonLabel userName items.toList
  let textV ← jsGet originalMessage "text"
  pure ⟨textV, updatedBlocks⟩

/-- JS `String.prototype.endsWith` (a host string primitive), over the
character lists. -/
def sEndsWith (s sfx : String) : Bool := sfx.data.isSuffixOf s.data

/-- The dispatch condition of `handleSlackInteraction`:
`payload.type === 'block_actions' && payload.actions[0]?.action_id.endsWith('_action')`.
Optional chaining makes a missing first action short-circuit to `undefined`
(falsy); `.endsWith` on a non-string action id throws. -/
def interactionGuard (payload : Json) : Except Unit Bool := do
  let tV ← jsGet (some payload) "type"
  if jsEqStr tV "block_actions" then do
    let actionsV ← jsGet (some payload) "actions"
    let a0 ← jsIndex actionsV 0
    match a0 with
    | none => pure false
    | some _ =>
        match (← jsGet a0 "action_id") with
        | some (.str aid) => pure (sEndsWith aid "_action")
        | _ => Except.error ()
  else pure false

/-- The body of `handleSlackInteraction`'s recognized-action branch: decode
the control's value, patch the record when `buttonConfig.field &&
buttonConfig.value !== undefined`, and rewrite the message.  The Airtable
PATCH and the Slack `chat.update` sit in `try/catch` in the source, so their
own failures alter nothing; the `chat.update` argument expressions
`payload.channel.id` / `payload.message.ts` are evaluated inside that `try`,
so their `TypeError`s are swallowed too. -/
def handleBlockAction (payload : Json) : Except Unit (HttpResponse × List Effect) := do
  let actionsV ← jsGet (some payload) "actions"
  let action ← jsIndex actionsV 0
  let valueV ← jsGet action "value"
  let value ← jsonParseOf valueV
  let buttonConfig ← jsGet (some value) "buttonConfig"
  let userV ← jsGet (some payload) "user"
  let userName ← jsGet userV "name"
  let recordId ← jsGet (some value) "recordId"
  let fieldV ← jsGet buttonConfig "field"
  let valV ← jsGet buttonConfig "value"
  let patchEffects :=
    if jsTruthy fieldV && valV.isSome then
      [Effect.patchRecord recordId (fieldV.getD .null) (valV.getD .null)]
    else []
  let labelV ← jsGet buttonConfig "label"
  let messageV ← jsGet (some payload) "message"
  let updated ← formatUpdatedMessage messageV labelV userName
  let updateEffects :=
    match (do
      let channelV ← jsGet (some payload) "channel"
      let chIdV ← jsGet channelV "id"
      let tsV ← jsGet messageV "ts"
      Except.ok (Effect.updateMessage chIdV tsV updated) : Except Unit Effect) with
    | .ok e => [e]
    | .error _ => []
  pure (⟨200, "Interaction handled"⟩, patchEffects ++ updateEffects)

/-- `handleSlackInteraction`, as a function of the `payload` form field
(`formData().get('payload')`; when the field is missing, `JSON.parse(null)`
parses the coerced string "null").  An `Except.error` models an uncaught
exception escaping the handler (the worker's `fetch` has no catch around it,
so no 200 acknowledgment is produced). -/
def handleSlackInteraction (formPayload : Option String) :
    Except Unit (HttpResponse × List Effect) := do
  let payloadStr :=
    match formPayload with
    | some s => s
    | none => "null"
  let payload ←
    match jsonParse payloadStr with
    | some j => Except.ok j
    | none => Except.error ()
  let isHandled ← interactionGuard payload
  if isHandled then handleBlockAction payload
  else pure (⟨200, "Interaction handled"⟩, [])

/-! ## The worker entry point (`fetch`) -/

/-- The worker's environment bindings. `AIRTABLE_WEBHOOK_SECRET` is nullable:
an unset binding is `undefined`, and the check treats it falsy. -/
structure Env where
  SLACK_BOT_TOKEN : String
  AIRTABLE_API_KEY : String
  AIRTABLE_BASE_ID : String
  AIRTABLE_TABLE_NAME : String
  SLACK_SIGNING_SECRET : String
  AIRTABLE_WEBHOOK_SECRET : Option String

/-- The inbound request, as the worker consumes it: method, the three
headers it reads (`None` = absent), the raw text body (fed to signature
verification), and the url-decoded `payload` form field of that body
(form decoding is a host primitive). -/
structure WorkerRequest where
  method : String
  slackSignature : Option String
  slackTimestamp : Option String
  webhookSecret : Option String
  body : String
  formPayload : Option String

/-- The `fetch` entry: dispatch on method, then on the presence of
`X-Slack-Signature`.  `notifyPayload` presents the result of
`request.json()` on the notify path as a typed `(record, config)` pair
(`none` = the body is not valid JSON, which the `catch` turns into 400
`'Invalid JSON payload'`). -/
def workerFetch (env : Env) (req : WorkerRequest)
    (hmac : String → String → String) (nowMs : Nat)
    (notifyPayload : Option (AirtableRecord × Config))
    (sendOutcome : String → Bool) :
    Except Unit (HttpResponse × List Effect) :=
  if req.method ≠ "POST" then .ok (⟨405, "Method not allowed"⟩, [])
  else if truthyStr req.slackSignature then
    if !isValidSlackRequest hmac nowMs req.slackTimestamp req.slackSignature req.body
        env.SLACK_SIGNING_SECRET then
      .ok (⟨401, "Invalid Slack signature"⟩, [])
    else handleSlackInteraction req.formPayload
  else
    if !truthyStr env.AIRTABLE_WEBHOOK_SECRET || !truthyStr req.webhookSecret ||
        !timingSafeEqual (env.AIRTABLE_WEBHOOK_SECRET.getD "")
          (req.webhookSecret.getD "") then
      .ok (⟨401, "Unauthorized"⟩, [])
    else
      match notifyPayload with
      | none => .ok (⟨400, "Invalid JSON payload"⟩, [])
      | some (record, config) => .ok (handleWebhook record config sendOutcome)

/-! ## Correctness of timingSafeEqual -/

theorem char_toNat_inj {c d : Char} (h : c.toNat = d.toNat) : c = d :=
  Char.eq_of_val_eq (UInt32.ext h)

theorem lor_eq_zero {a b : Nat} : a ||| b = 0 ↔ a = 0 ∧ b = 0 := by
  constructor
  · intro h
    refine ⟨Nat.eq_of_testBit_eq fun i => ?_, Nat.eq_of_testBit_eq fun i => ?_⟩ <;>
      · have hb := congrArg (fun n => Nat.testBit n i) h
        simp [Nat.testBit_or] at hb
        simp [hb]
  · rintro ⟨rfl, rfl⟩
    rfl

theorem foldl_lor_eq_zero {α : Type} (f : α → Nat) :
    ∀ (l : List α) (acc : Nat),
      l.foldl (fun r x => r ||| f x) acc = 0 ↔ acc = 0 ∧ ∀ x ∈ l, f x = 0 := by
  intro l
  induction l with
  | nil => intro acc; simp
  | cons x t ih =>
    intro acc
    rw [List.foldl_cons, ih, lor_eq_zero]
    constructor
    · rintro ⟨⟨h1, h2⟩, h3⟩
      refine ⟨h1, ?_⟩
      intro y hy
      rcases List.mem_cons.mp hy with rfl | hy
      · exact h2
      · exact h3 y hy
    · rintro ⟨h1, h2⟩
      exact ⟨⟨h1, h2 x (by simp)⟩, fun y hy => h2 y (by simp [hy])⟩

theorem zip_pairs_eq_mp : ∀ (a b : List Char), a.length = b.length →
    (∀ p ∈ a.zip b, p.1 = p.2) → a = b
  | [], [], _, _ => rfl
  | [], y :: u, hb, _ => by simp at hb
  | x :: t, [], hb, _ => by simp at hb
  | x :: t, y :: u, hb, h => by
      have hxy : x = y := h (x, y) (by simp)
      have htu : t = u :=
        zip_pairs_eq_mp t u (by simpa using hb) fun p hp => h p (by simp [hp])
      rw [hxy, htu]

theorem zip_self_eq : ∀ (l : List Char), ∀ p ∈ l.zip l, p.1 = p.2
  | [], p, hp => by simp at hp
  | x :: t, p, hp => by
      rcases List.mem_cons.mp hp with rfl | hp
      · rfl
      · exact zip_self_eq t p hp

/-- `timingSafeEqual` decides string identity: true exactly on equal strings
(in particular false whenever the lengths differ). -/
theorem timingSafeEqual_eq_iff (a b : String) :
    timingSafeEqual a b = true ↔ a = b := by
  unfold timingSafeEqual
  by_cases hlen : a.data.length = b.data.length
  · simp only [hlen, ne_eq, not_true_eq_false, if_false]
    rw [beq_iff_eq, foldl_lor_eq_zero (fun p : Char × Char => p.1.toNat ^^^ p.2.toNat)]
    constructor
    · rintro ⟨_, h⟩
      have hd := zip_pairs_eq_mp a.data b.data hlen fun p hp =>
        char_toNat_inj (Nat.xor_eq_zero.mp (h p hp))
      calc a = String.mk a.data := rfl
        _ = String.mk b.data := by rw [hd]
        _ = b := rfl
    · intro h
      subst h
      refine ⟨rfl, fun p hp => ?_⟩
      have hp2 : p.1 = p.2 := zip_self_eq a.data p hp
      simp [hp2, Nat.xor_self]
  · simp only [hlen, ne_eq, not_false_eq_true, if_true]
    constructor
    · intro h
      simp at h
    · intro h
      subst h
      simp at hlen

/-! ## Correctness of the first-occurrence replace -/

/-- `pat` occurs as a contiguous substring of `s`. -/
def occursIn (pat s : List Char) : Prop := ∃ pre post, s = pre ++ pat ++ post

theorem firstSplit_some_spec (pat : List Char) :
    ∀ (s pre post : List Char), firstSplit pat s = some (pre, post) →
      s = pre ++ pat ++ post ∧ ∀ a b, s = a ++ pat ++ b → pre.length ≤ a.length := by
  intro s
  induction s with
  | nil =>
    intro pre post h
    simp only [firstSplit] at h
    by_cases hp : pat.isPrefixOf ([] : List Char) = true
    · have hpat : pat = [] := List.prefix_nil.mp (List.isPrefixOf_iff_prefix.mp hp)
      rw [if_pos hp] at h
      obtain ⟨rfl, rfl⟩ := Prod.mk.injEq _ _ _ _ ▸ Option.some.inj h
      exact ⟨by simp [hpat], fun a b _ => by simp⟩
    · rw [if_neg hp] at h
      exact absurd h (by simp)
  | cons c s' ih =>
    intro pre post h
    simp only [firstSplit] at h
    by_cases hp : pat.isPrefixOf (c :: s') = true
    · obtain ⟨t, ht⟩ := List.isPrefixOf_iff_prefix.mp hp
      rw [if_pos hp] at h
      obtain ⟨rfl, rfl⟩ := Prod.mk.injEq _ _ _ _ ▸ Option.some.inj h
      constructor
      · rw [← ht, List.drop_left, List.nil_append, ht]
      · intro a b hab
        simp
    · rw [if_neg hp] at h
      rw [Option.map_eq_some'] at h
      obtain ⟨⟨p, q⟩, hfs, hpq⟩ := h
      cases hpq
      obtain ⟨hs', hmin⟩ := ih p q hfs
      constructor
      · simp [hs']
      · intro a b hab
        cases a with
        | nil =>
          exfalso
          apply hp
          rw [List.isPrefixOf_iff_prefix]
          exact ⟨b, by simpa using hab.symm⟩
        | cons c' a' =>
          simp only [List.cons_append, List.cons.injEq] at hab
          have := hmin a' b hab.2
          simp
          omega

theorem occursIn_firstSplit (pat : List Char) :
    ∀ s, occursIn pat s → (firstSplit pat s).isSome := by
  intro s
  induction s with
  | nil =>
    rintro ⟨pre, post, hs⟩
    have hpre : pre = [] := by
      cases pre with
      | nil => rfl
      | cons x t => simp at hs
    subst hpre
    have hpat : pat = [] := by
      cases pat with
      | nil => rfl
      | cons x t => simp at hs
    subst hpat
    simp [firstSplit, List.isPrefixOf]
  | cons c s' ih =>
    rintro ⟨pre, post, hs⟩
    simp only [firstSplit]
    by_cases hp : pat.isPrefixOf (c :: s') = true
    · rw [if_pos hp]
      simp
    · rw [if_neg hp]
      cases pre with
      | nil =>
        exfalso
        apply hp
        rw [List.isPrefixOf_iff_prefix]
        exact ⟨post, by simpa using hs.symm⟩
      | cons c' pre' =>
        simp only [List.cons_append, List.cons.injEq] at hs
        have hrec := ih ⟨pre', post, hs.2⟩
        cases hfs : firstSplit pat s' with
        | none => rw [hfs] at hrec; simp at hrec
        | some p => simp

theorem replaceFirst_of_none {pat repl s : List Char} (h : firstSplit pat s = none) :
    replaceFirst pat repl s = s := by
  simp [replaceFirst, h]

/-- A replacement containing no `$` is inserted verbatim: `GetSubstitution`
is the identity on it. -/
theorem getSubstitution_of_no_dollar (matched pre post : List Char) :
    ∀ repl : List Char, '$' ∉ repl → getSubstitution matched pre post repl = repl := by
  intro repl
  induction repl with
  | nil => intro _; rfl
  | cons c rest ih =>
    intro h
    have hc : ¬ c = '$' := fun hc => h (hc ▸ List.mem_cons_self c rest)
    have hrest : '$' ∉ rest := fun hm => h (List.mem_cons_of_mem c hm)
    cases rest with
    | nil => rfl
    | cons d rest2 =>
      simp only [getSubstitution, if_neg hc, ih hrest]

/-! ## Survival of absent-field tokens under the substitution loop -/

/-- The template token of a field name, over `List Char`. -/
def tokL (g : List Char) : List Char := '\x7b' :: (g ++ ['\x7d'])

theorem tokL_length (g : List Char) : (tokL g).length = g.length + 2 := by
  simp [tokL]

theorem get_block (x y z : List Char) (m : Nat) (hm : m < y.length) :
    (x ++ (y ++ z))[x.length + m]? = y[m]? := by
  rw [List.getElem?_append_right (by omega)]
  simp only [Nat.add_sub_cancel_left]
  exact List.getElem?_append_left hm

theorem seg_get (x y z : List Char) (n m : Nat) (hn : n = x.length + m)
    (hm : m < y.length) : (x ++ y ++ z)[n]? = y[m]? := by
  subst hn
  rw [List.append_assoc]
  exact get_block x y z m hm

theorem tokL_get_mid (g : List Char) (m : Nat) (hm : m < g.length) :
    (tokL g)[m + 1]? = g[m]? := by
  simp only [tokL, List.getElem?_cons_succ]
  exact List.getElem?_append_left hm

theorem tokL_get_last (g : List Char) : (tokL g)[g.length + 1]? = some '\x7d' := by
  simp only [tokL, List.getElem?_cons_succ]
  rw [List.getElem?_append_right (le_refl _)]
  simp

theorem brace_eq : ∀ (k g x y : List Char), '\x7d' ∉ k → '\x7d' ∉ g →
    k ++ '\x7d' :: x = g ++ '\x7d' :: y → k = g
  | [], [], _, _, _, _, _ => rfl
  | [], d :: g', x, y, hk, hg, h => by
      simp only [List.nil_append, List.cons_append, List.cons.injEq] at h
      exact absurd (h.1 ▸ List.mem_cons_self d g') hg
  | c :: k', [], x, y, hk, hg, h => by
      simp only [List.nil_append, List.cons_append, List.cons.injEq] at h
      exact absurd (h.1.symm ▸ List.mem_cons_self c k') hk
  | c :: k', d :: g', x, y, hk, hg, h => by
      simp only [List.cons_append, List.cons.injEq] at h
      have htl := brace_eq k' g' x y (fun hm => hk (List.mem_cons_of_mem c hm))
        (fun hm => hg (List.mem_cons_of_mem d hm)) h.2
      rw [h.1, htl]

/-- Two brace-delimited tokens with brace-free distinct names cannot overlap:
an occurrence of the `g` token in a string split around an occurrence of the
`k` token lies entirely inside the left or the right part. -/
theorem token_overlap {g k : List Char}
    (hg1 : '\x7b' ∉ g) (hg2 : '\x7d' ∉ g) (hk1 : '\x7b' ∉ k) (hk2 : '\x7d' ∉ k)
    (hne : g ≠ k) (pre post a b : List Char)
    (heq : pre ++ tokL k ++ post = a ++ tokL g ++ b) :
    occursIn (tokL g) pre ∨ occursIn (tokL g) post := by
  have hlens := congrArg List.length heq
  simp only [List.length_append, tokL_length] at hlens
  by_cases h1 : a.length + (g.length + 2) ≤ pre.length
  · left
    have hpre1 : pre <+: pre ++ tokL k ++ post := by
      rw [List.append_assoc]
      exact List.prefix_append pre _
    have hpre2 : a ++ tokL g <+: pre ++ tokL k ++ post := by
      rw [heq]
      exact List.prefix_append _ _
    obtain ⟨b', hb'⟩ :=
      List.prefix_of_prefix_length_le hpre2 hpre1
        (by simp [tokL_length]; omega)
    exact ⟨a, b', by rw [← hb', List.append_assoc]⟩
  · by_cases h2 : pre.length + (k.length + 2) ≤ a.length
    · right
      have hpost1 : post <:+ pre ++ tokL k ++ post := List.suffix_append _ _
      have hpost2 : tokL g ++ b <:+ pre ++ tokL k ++ post := by
        rw [heq, List.append_assoc]
        exact List.suffix_append _ _
      obtain ⟨a', ha'⟩ :=
        List.suffix_of_suffix_length_le hpost2 hpost1
          (by simp [tokL_length]; omega)
      exact ⟨a', b, by rw [← ha', List.append_assoc]⟩
    · exfalso
      push_neg at h1 h2
      rcases lt_trichotomy a.length pre.length with hlt | heqv | hgt
      · -- the region's opening brace falls inside the g token
        have e1 : (pre ++ tokL k ++ post)[pre.length]? = some '\x7b' := by
          rw [seg_get pre (tokL k) post pre.length 0 (by omega) (by simp [tokL])]
          simp [tokL]
        rw [heq] at e1
        by_cases hmid : pre.length ≤ a.length + g.length
        · rw [seg_get a (tokL g) b pre.length ((pre.length - a.length - 1) + 1)
            (by omega) (by rw [tokL_length]; omega)] at e1
          rw [tokL_get_mid g _ (by omega)] at e1
          exact hg1 (List.getElem?_mem e1)
        · rw [seg_get a (tokL g) b pre.length (g.length + 1) (by omega)
            (by rw [tokL_length]; omega)] at e1
          rw [tokL_get_last] at e1
          exact absurd (Option.some.inj e1) (by decide)
      · -- equal starts: the names must coincide
        have heq2 : pre ++ (tokL k ++ post) = a ++ (tokL g ++ b) := by
          rw [← List.append_assoc, ← List.append_assoc]
          exact heq
        obtain ⟨_, htail⟩ := List.append_inj heq2 heqv.symm
        simp only [tokL, List.cons_append, List.cons.injEq, List.append_assoc,
          List.singleton_append, List.nil_append] at htail
        exact hne (brace_eq k g post b hk2 hg2 htail.2).symm

      · -- the g token's opening brace falls inside the region
        have e1 : (a ++ tokL g ++ b)[a.length]? = some '\x7b' := by
          rw [seg_get a (tokL g) b a.length 0 (by omega) (by simp [tokL])]
          simp [tokL]
        rw [← heq] at e1
        by_cases hmid : a.length ≤ pre.length + k.length
        · rw [seg_get pre (tokL k) post a.length ((a.length - pre.length - 1) + 1)
            (by omega) (by rw [tokL_length]; omega)] at e1
          rw [tokL_get_mid k _ (by omega)] at e1
          exact hk1 (List.getElem?_mem e1)
        · rw [seg_get pre (tokL k) post a.length (k.length + 1) (by omega)
            (by rw [tokL_length]; omega)] at e1
          rw [tokL_get_last] at e1
          exact absurd (Option.some.inj e1) (by decide)

theorem survive_step {g k : List Char} (v : List Char)
    (hg1 : '\x7b' ∉ g) (hg2 : '\x7d' ∉ g) (hk1 : '\x7b' ∉ k) (hk2 : '\x7d' ∉ k)
    (hne : g ≠ k) (s : List Char) (hocc : occursIn (tokL g) s) :
    occursIn (tokL g) (replaceFirst (tokL k) v s) := by
  cases hfs : firstSplit (tokL k) s with
  | none =>
    rw [replaceFirst_of_none hfs]
    exact hocc
  | some pq =>
    obtain ⟨pre, post⟩ := pq
    obtain ⟨hs, _⟩ := firstSplit_some_spec (tokL k) s pre post hfs
    obtain ⟨a, b, hab⟩ := hocc
    rcases token_overlap hg1 hg2 hk1 hk2 hne pre post a b (hs.symm.trans hab) with
      ⟨a1, b1, h1⟩ | ⟨a1, b1, h1⟩
    · exact ⟨a1, b1 ++ getSubstitution (tokL k) pre post v ++ post,
        by simp [replaceFirst, hfs, h1]⟩
    · exact ⟨pre ++ getSubstitution (tokL k) pre post v ++ a1, b1,
        by simp [replaceFirst, hfs, h1]⟩

/-- A field name containing no brace characters (a well-formed token name). -/
def braceFreeName (g : String) : Prop := '\x7b' ∉ g.data ∧ '\x7d' ∉ g.data

theorem token_data (k : String) : ("\x7b" ++ k ++ "\x7d").data = tokL k.data := by
  simp [tokL, String.data_append]

/-- A `\x7bFieldName\x7d` token whose brace-free field name is not among the
(brace-free) field keys still occurs in the rendered text whenever it occurs
in the template: the substitution loop can neither target nor destroy it. -/
theorem renderTemplate_keeps_absent_token (fields : List (String × String)) :
    ∀ (template g : String), braceFreeName g →
      (∀ kv ∈ fields, braceFreeName kv.1) → (∀ kv ∈ fields, kv.1 ≠ g) →
      occursIn (tokL g.data) template.data →
      occursIn (tokL g.data) (renderTemplate template fields).data := by
  induction fields with
  | nil =>
    intro template g _ _ _ h
    simpa [renderTemplate] using h
  | cons kv t ih =>
    intro template g hg hks hne hocc
    simp only [renderTemplate, List.foldl_cons]
    have hkmem : kv ∈ kv :: t := by simp
    have hnames : g.data ≠ kv.1.data := by
      intro hd
      apply hne kv hkmem
      calc kv.1 = String.mk kv.1.data := rfl
        _ = String.mk g.data := by rw [hd]
        _ = g := rfl
    have hstep := survive_step (g := g.data) (k := kv.1.data) kv.2.data
      hg.1 hg.2 (hks kv hkmem).1 (hks kv hkmem).2 hnames template.data hocc
    have hconv : (jsReplace template ("\x7b" ++ kv.1 ++ "\x7d") kv.2).data =
        replaceFirst (tokL kv.1.data) kv.2.data template.data := by
      show replaceFirst ("\x7b" ++ kv.1 ++ "\x7d").data kv.2.data template.data = _
      rw [token_data]
    have := ih (jsReplace template ("\x7b" ++ kv.1 ++ "\x7d") kv.2) g hg
      (fun x hx => hks x (by simp [hx])) (fun x hx => hne x (by simp [hx]))
      (hconv ▸ hstep)
    simpa [renderTemplate] using this

/-! ## Running the interaction handler on well-formed payloads -/

theorem except_bind_ok {α β : Type} (a : α) (f : α → Except Unit β) :
    (Except.ok a >>= f : Except Unit β) = f a := rfl

theorem except_bind_error {α β : Type} (f : α → Except Unit β) :
    (Except.error () >>= f : Except Unit β) = Except.error () := rfl

theorem except_pure {α : Type} (a : α) : (pure a : Except Unit α) = Except.ok a := rfl

theorem except_map_ok {α β : Type} (a : α) (f : α → β) :
    (Except.ok a : Except Unit α).map f = Except.ok (f a) := rfl

theorem jitemsOf_toList : ∀ l : List Json, (jitemsOf l).toList = l
  | [] => rfl
  | j :: t => by simp [jitemsOf, JItems.toList, jitemsOf_toList t]

/-- A block-action interaction payload, assembled from its parts (the shape
Slack posts to the worker). -/
def interactionPayload (aid value userName mtext ts chId : String)
    (blocks : List Json) : Json :=
  .obj (.cons "type" (.str "block_actions")
    (.cons "actions" (.arr (.cons (.obj (.cons "action_id" (.str aid)
      (.cons "value" (.str value) .nil))) .nil))
    (.cons "user" (.obj (.cons "name" (.str userName) .nil))
    (.cons "message" (.obj (.cons "text" (.str mtext)
      (.cons "ts" (.str ts)
      (.cons "blocks" (.arr (jitemsOf blocks)) .nil))))
    (.cons "channel" (.obj (.cons "id" (.str chId) .nil))
    .nil)))))

/-- The patch guard of `handleSlackInteraction`:
`buttonConfig.field && buttonConfig.value !== undefined`. -/
def patchGuard (bc : ButtonConfig) : Bool :=
  jsTruthy (bc.field.map .str) && bc.value.isSome

theorem interactionGuard_payload (aid value userName mtext ts chId : String)
    (blocks : List Json) :
    interactionGuard (interactionPayload aid value userName mtext ts chId blocks) =
      .ok (sEndsWith aid "_action") := by
  simp +decide only [interactionGuard, interactionPayload, jsGet, jsIndex,
    JFields.lookup, JItems.get?, jsEqStr, except_bind_ok, except_pure,
    if_true, if_false]

theorem handleBlockAction_payload (rid : String) (bc : ButtonConfig)
    (aid userName mtext ts chId : String) (blocks outBlocks : List Json)
    (hmap : mapAck (some (.str bc.label)) (some (.str userName)) blocks = .ok outBlocks) :
    handleBlockAction (interactionPayload aid
      (jsonStringify (contextJson rid bc)) userName mtext ts chId blocks) =
    .ok (⟨200, "Interaction handled"⟩,
      (if patchGuard bc then
        [.patchRecord (some (.str rid)) (.str (bc.field.getD "")) (bc.value.getD .null)]
       else []) ++
      [.updateMessage (some (.str chId)) (some (.str ts)) ⟨some (.str mtext), outBlocks⟩]) := by
  obtain ⟨label, field, value⟩ := bc
  simp only at hmap
  cases field <;> cases value <;>
    simp +decide only [handleBlockAction, interactionPayload, contextJson, bcJson,
      patchGuard, except_bind_ok, except_bind_error, except_pure, except_map_ok,
      jsGet, jsIndex, JFields.lookup, JItems.get?, jsEqStr, jsTruthy,
      jsonParseOf, jsonParse_stringify,
      formatUpdatedMessage, jitemsOf_toList, hmap,
      if_true, if_false, Option.getD, Option.isSome, Option.map]

/-- Running `handleSlackInteraction` on a well-formed block-action payload
whose control carries an encoded `\x7brecordId, buttonConfig\x7d` context:
the handler acknowledges with 200, issues the patch exactly under the
source's `buttonConfig.field && buttonConfig.value !== undefined` guard, and
rewrites the message via `mapAck`. -/
theorem handleSlackInteraction_run (rid : String) (bc : ButtonConfig)
    (aid userName mtext ts chId : String) (blocks outBlocks : List Json)
    (haid : sEndsWith aid "_action" = true)
    (hmap : mapAck (some (.str bc.label)) (some (.str userName)) blocks = .ok outBlocks) :
    handleSlackInteraction (some (jsonStringify (interactionPayload aid
      (jsonStringify (contextJson rid bc)) userName mtext ts chId blocks))) =
    .ok (⟨200, "Interaction handled"⟩,
      (if patchGuard bc then
        [.patchRecord (some (.str rid)) (.str (bc.field.getD "")) (bc.value.getD .null)]
       else []) ++
      [.updateMessage (some (.str chId)) (some (.str ts)) ⟨some (.str mtext), outBlocks⟩]) := by
  unfold handleSlackInteraction
  simp only [jsonParse_stringify, except_bind_ok, interactionGuard_payload, haid,
    if_true]
  exact handleBlockAction_payload rid bc aid userName mtext ts chId blocks outBlocks hmap

/-- Total view of `block.type === 'actions'` on object blocks. -/
def blockTypeIsActions (b : Json) : Bool :=
  match b with
  | .obj fs => jsEqStr (fs.lookup "type") "actions"
  | _ => false

/-- On a block list consisting of JSON objects (as all Slack blocks are),
the rewrite map succeeds and acts pointwise: actions blocks become the
acknowledgment block, all others are returned unchanged. -/
theorem mapAck_obj (lbl usr : Option Json) :
    ∀ blocks : List Json, (∀ b ∈ blocks, ∃ fs, b = .obj fs) →
      mapAck lbl usr blocks =
        .ok (blocks.map (fun b => if blockTypeIsActions b then ackBlock lbl usr else b)) := by
  intro blocks
  induction blocks with
  | nil => intro; rfl
  | cons b t ih =>
    intro h
    obtain ⟨fs, rfl⟩ := h b (by simp)
    simp only [mapAck, blockIsActions, jsGet, except_map_ok, except_bind_ok,
      ih fun x hx => h x (by simp [hx]), except_pure, List.map_cons,
      blockTypeIsActions]

/-! ## The claims -/

/-- The interaction handler's decoding of a control's value string:
`JSON.parse(action.value)` followed by the reads `value.recordId` and
`value.buttonConfig` (lines 250–253 of the worker). -/
def decodeActionValue (s : String) : Except Unit (Option Json × Option Json) := do
  let value ←
    match jsonParse s with
    | some j => Except.ok j
    | none => Except.error ()
  let buttonConfig ← jsGet (some value) "buttonConfig"
  let recordId ← jsGet (some value) "recordId"
  pure (recordId, buttonConfig)

/-- C1: encoded button context round trip.  For any `ButtonConfig` with both
`field` and `value` set and any record id, serializing
`\x7brecordId, buttonConfig\x7d` into the control's value string (as
`formatSlackMessage` does) and parsing it back through the interaction
handler's reads recovers the identical record id and the identical
`buttonConfig` object, with `label`, `field` and `value` intact. -/
theorem c1_button_roundtrip (rid : String) (bc : ButtonConfig) (f : String) (v : Json)
    (hf : bc.field = some f) (hv : bc.value = some v) :
    decodeActionValue (jsonStringify (contextJson rid bc)) =
      .ok (some (.str rid), some (bcJson bc)) ∧
    bcJson bc = .obj (.cons "label" (.str bc.label)
      (.cons "field" (.str f) (.cons "value" v .nil))) := by
  constructor
  · simp only [decodeActionValue, jsonParse_stringify, except_bind_ok, contextJson,
      jsGet, JFields.lookup, except_pure]
    simp +decide
  · obtain ⟨label, field, value⟩ := bc
    simp only at hf hv
    subst hf
    subst hv
    simp [bcJson]

theorem c1_button_roundtrip_witness :
    (⟨"Approve", some "Status", some (.str "Approved")⟩ : ButtonConfig).field =
        some "Status" ∧
    (⟨"Approve", some "Status", some (.str "Approved")⟩ : ButtonConfig).value =
        some (.str "Approved") ∧
    (decodeActionValue (jsonStringify (contextJson "rec1"
        ⟨"Approve", some "Status", some (.str "Approved")⟩)) =
      .ok (some (.str "rec1"),
           some (bcJson ⟨"Approve", some "Status", some (.str "Approved")⟩)) ∧
     bcJson ⟨"Approve", some "Status", some (.str "Approved")⟩ =
       .obj (.cons "label" (.str "Approve")
         (.cons "field" (.str "Status") (.cons "value" (.str "Approved") .nil)))) :=
  ⟨rfl, rfl,
    c1_button_roundtrip "rec1" ⟨"Approve", some "Status", some (.str "Approved")⟩
      "Status" (.str "Approved") rfl rfl⟩

/-- C10: `timingSafeEqual` is a correct equality test: it returns true
exactly on identical strings, and in particular returns false whenever the
two strings have different lengths (different strings of equal length give a
nonzero accumulated XOR; different lengths fail the length check). -/
theorem c10_timingSafeEqual_correct (a b : String) :
    timingSafeEqual a b = true ↔ a = b :=
  timingSafeEqual_eq_iff a b

/-- C4: anti-replay window.  Whenever the timestamp header parses to a value
more than 300 seconds older than `Date.now()/1000`, the signature verifier
returns false — no matter what the HMAC function returns — and the worker
rejects the request with 401 `'Invalid Slack signature'` without issuing any
outbound call. -/
theorem c4_stale_timestamp_rejected (hmac : String → String → String) (nowMs : Nat)
    (env : Env) (req : WorkerRequest) (notifyPayload : Option (AirtableRecord × Config))
    (sendOutcome : String → Bool) (t : Int)
    (hpost : req.method = "POST")
    (hsig : truthyStr req.slackSignature = true)
    (ht : parseIntJS (req.slackTimestamp.getD "") = some t)
    (hold : t < ((nowMs / 1000 : Nat) : Int) - 60 * 5) :
    isValidSlackRequest hmac nowMs req.slackTimestamp req.slackSignature req.body
      env.SLACK_SIGNING_SECRET = false ∧
    workerFetch env req hmac nowMs notifyPayload sendOutcome =
      .ok (⟨401, "Invalid Slack signature"⟩, []) := by
  have hvalid : isValidSlackRequest hmac nowMs req.slackTimestamp req.slackSignature
      req.body env.SLACK_SIGNING_SECRET = false := by
    unfold isValidSlackRequest
    by_cases hc : (!truthyStr req.slackTimestamp || !truthyStr req.slackSignature ||
        decide (req.body = "")) = true
    · rw [if_pos hc]
    · rw [if_neg hc]
      simp only [ht]
      rw [if_pos (by simpa using hold)]
  refine ⟨hvalid, ?_⟩
  unfold workerFetch
  rw [if_neg (by simp [hpost]), if_pos hsig, if_pos (by simp [hvalid])]

theorem c4_stale_timestamp_rejected_witness :
    parseIntJS ((some "0" : Option String).getD "") = some 0 ∧
    (0 : Int) < ((1000000000000 / 1000 : Nat) : Int) - 60 * 5 ∧
    (isValidSlackRequest (fun _ _ => "abc") 1000000000000 (some "0") (some "v0=abc")
        "body" "signsecret" = false ∧
     workerFetch ⟨"tok", "key", "base", "tbl", "signsecret", some "whsecret"⟩
        ⟨"POST", some "v0=abc", some "0", none, "body", none⟩
        (fun _ _ => "abc") 1000000000000 none (fun _ => true) =
          .ok (⟨401, "Invalid Slack signature"⟩, [])) :=
  ⟨by decide, by decide,
    c4_stale_timestamp_rejected (fun _ _ => "abc") 1000000000000
      ⟨"tok", "key", "base", "tbl", "signsecret", some "whsecret"⟩
      ⟨"POST", some "v0=abc", some "0", none, "body", none⟩
      none (fun _ => true) 0 rfl (by decide) (by decide) (by decide)⟩

/-- C5: fail-closed notify authentication.  On the notify path (no Slack
signature header), a missing `X-Webhook-Secret` header, a missing configured
secret, or any mismatch between the two is rejected with 401
`'Unauthorized'` before any message is rendered or any outbound call is
issued (the effect list is empty). -/
theorem c5_notify_auth_fail_closed (env : Env) (req : WorkerRequest)
    (hmac : String → String → String) (nowMs : Nat)
    (notifyPayload : Option (AirtableRecord × Config)) (sendOutcome : String → Bool)
    (hpost : req.method = "POST")
    (hnosig : truthyStr req.slackSignature = false)
    (hfail : req.webhookSecret = none ∨ env.AIRTABLE_WEBHOOK_SECRET = none ∨
      ∀ e r, env.AIRTABLE_WEBHOOK_SECRET = some e → req.webhookSecret = some r → e ≠ r) :
    workerFetch env req hmac nowMs notifyPayload sendOutcome =
      .ok (⟨401, "Unauthorized"⟩, []) := by
  unfold workerFetch
  rw [if_neg (by simp [hpost]), if_neg (by simp [hnosig])]
  have hcond : (!truthyStr env.AIRTABLE_WEBHOOK_SECRET || !truthyStr req.webhookSecret ||
      !timingSafeEqual (env.AIRTABLE_WEBHOOK_SECRET.getD "")
        (req.webhookSecret.getD "")) = true := by
    cases henv : env.AIRTABLE_WEBHOOK_SECRET with
    | none => simp [truthyStr]
    | some e =>
      cases hreq : req.webhookSecret with
      | none => simp [truthyStr]
      | some r =>
        rcases hfail with h | h | h
        · rw [hreq] at h
          exact absurd h (by simp)
        · rw [henv] at h
          exact absurd h (by simp)
        · have hne := h e r henv hreq
          have htse : timingSafeEqual e r = false := by
            cases htse : timingSafeEqual e r with
            | false => rfl
            | true => exact absurd ((timingSafeEqual_eq_iff e r).mp htse) hne
          simp [htse]
  rw [if_pos hcond]

theorem c5_notify_auth_fail_closed_witness :
    (⟨"POST", none, none, none, "", none⟩ : WorkerRequest).webhookSecret = none ∧
    workerFetch ⟨"tok", "key", "base", "tbl", "sign", some "s1"⟩
      ⟨"POST", none, none, none, "", none⟩ (fun _ _ => "") 0 none (fun _ => true) =
      .ok (⟨401, "Unauthorized"⟩, []) :=
  ⟨rfl,
    c5_notify_auth_fail_closed ⟨"tok", "key", "base", "tbl", "sign", some "s1"⟩
      ⟨"POST", none, none, none, "", none⟩ (fun _ _ => "") 0 none (fun _ => true)
      rfl (by decide) (Or.inl rfl)⟩

/-- C6: fan-out independence.  On an authenticated, well-formed notify
request, one post is issued to every configured channel regardless of the
individual outcomes, and even when one channel fails while another succeeds
the pipeline returns 200 `'Webhook processed'`. -/
theorem c6_fanout_independence (env : Env) (req : WorkerRequest)
    (hmac : String → String → String) (nowMs : Nat)
    (record : AirtableRecord) (config : Config) (sendOutcome : String → Bool)
    (s c1 c2 : String)
    (hpost : req.method = "POST")
    (hnosig : truthyStr req.slackSignature = false)
    (henv : env.AIRTABLE_WEBHOOK_SECRET = some s)
    (hreq : req.webhookSecret = some s)
    (hs : s ≠ "")
    (hc1 : c1 ∈ config.slackChannelIds) (hc2 : c2 ∈ config.slackChannelIds)
    (hfailed : sendOutcome c1 = false) (hsucceeded : sendOutcome c2 = true) :
    workerFetch env req hmac nowMs (some (record, config)) sendOutcome =
      .ok (⟨200, "Webhook processed"⟩,
        config.slackChannelIds.map
          (fun ch => .postMessage ch (formatSlackMessage record config))) ∧
    ∀ ch ∈ config.slackChannelIds,
      Effect.postMessage ch (formatSlackMessage record config) ∈
        config.slackChannelIds.map
          (fun ch => Effect.postMessage ch (formatSlackMessage record config)) := by
  constructor
  · unfold workerFetch
    rw [if_neg (by simp [hpost]), if_neg (by simp [hnosig])]
    rw [if_neg (by
      simp [henv, hreq, truthyStr, hs, (timingSafeEqual_eq_iff s s).mpr rfl])]
    simp [handleWebhook]
  · intro ch hch
    exact List.mem_map_of_mem _ hch

theorem c6_fanout_independence_witness :
    ("CA" : String) ∈ (⟨["CA", "CB"], "Hi", none, none⟩ : Config).slackChannelIds ∧
    ("CB" : String) ∈ (⟨["CA", "CB"], "Hi", none, none⟩ : Config).slackChannelIds ∧
    (fun ch => ch = "CB") "CA" = false ∧ (fun ch => ch = "CB") "CB" = true ∧
    (workerFetch ⟨"tok", "key", "base", "tbl", "sign", some "s"⟩
        ⟨"POST", none, none, some "s", "", none⟩ (fun _ _ => "") 0
        (some (⟨"rec1", []⟩, ⟨["CA", "CB"], "Hi", none, none⟩))
        (fun ch => ch = "CB") =
      .ok (⟨200, "Webhook processed"⟩,
        (⟨["CA", "CB"], "Hi", none, none⟩ : Config).slackChannelIds.map
          (fun ch => .postMessage ch
            (formatSlackMessage ⟨"rec1", []⟩ ⟨["CA", "CB"], "Hi", none, none⟩))) ∧
     ∀ ch ∈ (⟨["CA", "CB"], "Hi", none, none⟩ : Config).slackChannelIds,
       Effect.postMessage ch
           (formatSlackMessage ⟨"rec1", []⟩ ⟨["CA", "CB"], "Hi", none, none⟩) ∈
         (⟨["CA", "CB"], "Hi", none, none⟩ : Config).slackChannelIds.map
           (fun ch => Effect.postMessage ch
             (formatSlackMessage ⟨"rec1", []⟩ ⟨["CA", "CB"], "Hi", none, none⟩))) :=
  ⟨by decide, by decide, by decide, by decide,
    c6_fanout_independence ⟨"tok", "key", "base", "tbl", "sign", some "s"⟩
      ⟨"POST", none, none, some "s", "", none⟩ (fun _ _ => "") 0
      ⟨"rec1", []⟩ ⟨["CA", "CB"], "Hi", none, none⟩ (fun ch => ch = "CB")
      "s" "CA" "CB" rfl (by decide) rfl rfl (by decide) (by decide) (by decide)
      (by decide) (by decide)⟩

/-- C3: acknowledge-only buttons never patch the record.  For every decoded
interaction whose `ButtonConfig` lacks `field` or lacks `value` (including a
config with only one of the two set), the handler acknowledges with 200 —
not an error — and its effects contain no record patch (the patch guard
`buttonConfig.field && buttonConfig.value !== undefined` requires both). -/
theorem c3_ack_only_no_patch (rid : String) (bc : ButtonConfig)
    (aid userName mtext ts chId : String) (blocks : List Json)
    (haid : sEndsWith aid "_action" = true)
    (hblocks : ∀ b ∈ blocks, ∃ fs, b = .obj fs)
    (hlacks : bc.field = none ∨ bc.value = none) :
    ∃ effects,
      handleSlackInteraction (some (jsonStringify (interactionPayload aid
        (jsonStringify (contextJson rid bc)) userName mtext ts chId blocks))) =
        .ok (⟨200, "Interaction handled"⟩, effects) ∧
      ∀ e ∈ effects, ∀ r f v, e ≠ Effect.patchRecord r f v := by
  have hmap := mapAck_obj (some (.str bc.label)) (some (.str userName)) blocks hblocks
  have hguard : patchGuard bc = false := by
    rcases hlacks with h | h <;> simp [patchGuard, h, jsTruthy]
  have hrun := handleSlackInteraction_run rid bc aid userName mtext ts chId blocks _
    haid hmap
  rw [hguard] at hrun
  simp only [Bool.false_eq_true, if_false, List.nil_append] at hrun
  refine ⟨_, hrun, ?_⟩
  intro e he r f v
  simp only [List.mem_singleton] at he
  subst he
  simp

theorem c3_ack_only_no_patch_witness :
    sEndsWith "secondary_action" "_action" = true ∧
    (⟨"Ignore", none, none⟩ : ButtonConfig).field = none ∧
    (∃ effects,
      handleSlackInteraction (some (jsonStringify (interactionPayload
        "secondary_action"
        (jsonStringify (contextJson "rec1" ⟨"Ignore", none, none⟩))
        "Bo" "Hi" "1.2" "C1" [.obj (.cons "type" (.str "section") .nil)]))) =
        .ok (⟨200, "Interaction handled"⟩, effects) ∧
      ∀ e ∈ effects, ∀ r f v, e ≠ Effect.patchRecord r f v) :=
  ⟨by decide, rfl,
    c3_ack_only_no_patch "rec1" ⟨"Ignore", none, none⟩ "secondary_action" "Bo" "Hi"
      "1.2" "C1" [.obj (.cons "type" (.str "section") .nil)] (by decide)
      (fun b hb => by
        simp only [List.mem_singleton] at hb
        subst hb
        exact ⟨_, rfl⟩)
      (Or.inl rfl)⟩

/-- C7 (amended): once authenticated, a request whose payload is an object
with an unrecognized interaction type, or a recognized block action whose
action id does not end in `_action`, is acknowledged with 200
`'Interaction handled'` and no effects.  (A payload whose encoded context
fails to decode instead raises an uncaught exception — see the
counterexample — so no 200 acknowledgment is produced for it.) -/
theorem c7_interaction_ack (fs : JFields)
    (aid value userName mtext ts chId : String) (blocks : List Json) :
    (jsEqStr (fs.lookup "type") "block_actions" = false →
      handleSlackInteraction (some (jsonStringify (.obj fs))) =
        .ok (⟨200, "Interaction handled"⟩, [])) ∧
    (sEndsWith aid "_action" = false →
      handleSlackInteraction (some (jsonStringify
        (interactionPayload aid value userName mtext ts chId blocks))) =
        .ok (⟨200, "Interaction handled"⟩, [])) := by
  constructor
  · intro h
    unfold handleSlackInteraction
    simp only [jsonParse_stringify, except_bind_ok, interactionGuard, jsGet, h,
      if_false, except_pure, Bool.false_eq_true, reduceIte]
  · intro h
    unfold handleSlackInteraction
    simp only [jsonParse_stringify, except_bind_ok, interactionGuard_payload, h,
      except_pure, Bool.false_eq_true, reduceIte]

theorem c7_interaction_ack_witness :
    jsEqStr ((JFields.cons "type" (Json.str "url_verification") .nil).lookup "type")
        "block_actions" = false ∧
    sEndsWith "other_thing" "_action" = false ∧
    (handleSlackInteraction (some (jsonStringify
        (.obj (.cons "type" (.str "url_verification") .nil)))) =
      .ok (⟨200, "Interaction handled"⟩, []) ∧
     handleSlackInteraction (some (jsonStringify
        (interactionPayload "other_thing" "v" "Bo" "Hi" "1.2" "C1" []))) =
      .ok (⟨200, "Interaction handled"⟩, [])) :=
  ⟨by decide, by decide,
    (c7_interaction_ack (.cons "type" (.str "url_verification") .nil)
        "other_thing" "v" "Bo" "Hi" "1.2" "C1" []).1 (by decide),
    (c7_interaction_ack (.cons "type" (.str "url_verification") .nil)
        "other_thing" "v" "Bo" "Hi" "1.2" "C1" []).2 (by decide)⟩

/-- C7 counterexample: past authentication, a block action whose encoded
context is malformed JSON (left) or lacks the required `buttonConfig` key
(right) makes the handler throw (`JSON.parse` / property access on
`undefined`), so no 200 `'Interaction handled'` is returned — the claim's
"always success once authenticated" fails on decode errors. -/
theorem c7_decode_failure_throws :
    handleSlackInteraction (some (jsonStringify (interactionPayload
      "primary_action" "\x7b" "Bo" "Hi" "1.2" "C1" []))) = .error () ∧
    handleSlackInteraction (some (jsonStringify (interactionPayload
      "primary_action" (jsonStringify (.obj (.cons "recordId" (.str "r") .nil)))
      "Bo" "Hi" "1.2" "C1" []))) = .error () :=
  ⟨rfl, rfl⟩

/-- C8 counterexample: the acknowledgment block's text is
`*\x7blabel\x7d* by \x7buserName\x7d` (the label is markdown-bolded), not the claimed
plain `\x7blabel\x7d by \x7buserName\x7d`: at label `Approve` and user `Bo` the block
reads `*Approve* by Bo`, which differs from `Approve by Bo`. -/
theorem c8_ack_text_counterexample :
    formatUpdatedMessage
        (some (.obj (.cons "text" (.str "Hi")
          (.cons "blocks"
            (.arr (.cons (.obj (.cons "type" (.str "actions") .nil)) .nil)) .nil))))
        (some (.str "Approve")) (some (.str "Bo")) =
      .ok ⟨some (.str "Hi"), [ackBlock (some (.str "Approve")) (some (.str "Bo"))]⟩ ∧
    ackBlock (some (.str "Approve")) (some (.str "Bo")) =
      .obj (.cons "type" (.str "context")
        (.cons "elements" (.arr (.cons (.obj (.cons "type" (.str "mrkdwn")
          (.cons "text" (.str "*Approve* by Bo") .nil))) .nil)) .nil)) ∧
    ("*Approve* by Bo" : String) ≠ "Approve by Bo" := by
  refine ⟨rfl, rfl, by decide⟩

/-- C8 (amended): the rewrite frame condition.  On a message whose blocks
are JSON objects, `formatUpdatedMessage` keeps the fallback text, keeps
every non-actions block unchanged at its position, and replaces each actions
block with the single static acknowledgment block — whose text reads
`*\x7blabel\x7d* by \x7buserName\x7d` (markdown-bold label), not plain
`\x7blabel\x7d by \x7buserName\x7d`. -/
theorem c8_rewrite_frame (mfs : JFields) (blocks : List Json) (label user : String)
    (hblocks : ∀ b ∈ blocks, ∃ fs, b = .obj fs)
    (hb : mfs.lookup "blocks" = some (.arr (jitemsOf blocks))) :
    ∃ out,
      formatUpdatedMessage (some (.obj mfs)) (some (.str label)) (some (.str user)) =
        .ok ⟨mfs.lookup "text", out⟩ ∧
      out.length = blocks.length ∧
      (∀ i, (hi : i < blocks.length) →
        (blockTypeIsActions blocks[i] = true →
          out[i]? = some (ackBlock (some (.str label)) (some (.str user)))) ∧
        (blockTypeIsActions blocks[i] = false → out[i]? = some blocks[i])) ∧
      ackBlock (some (.str label)) (some (.str user)) =
        .obj (.cons "type" (.str "context")
          (.cons "elements" (.arr (.cons (.obj (.cons "type" (.str "mrkdwn")
            (.cons "text" (.str ("*" ++ label ++ "* by " ++ user)) .nil))) .nil))
            .nil)) := by
  refine ⟨blocks.map (fun b =>
    if blockTypeIsActions b then ackBlock (some (.str label)) (some (.str user)) else b),
    ?_, by simp, ?_, ?_⟩
  · unfold formatUpdatedMessage
    simp only [jsGet, except_bind_ok, hb, jitemsOf_toList,
      mapAck_obj (some (.str label)) (some (.str user)) blocks hblocks,
      except_pure]
  · intro i hi
    constructor <;> intro h <;>
      simp [List.getElem?_map, List.getElem?_eq_getElem hi, h]
  · simp [ackBlock, jsTemplate, jsToString]

theorem c8_rewrite_frame_witness :
    (∀ b ∈ ([.obj (.cons "type" (.str "section") .nil),
             .obj (.cons "type" (.str "actions") .nil)] : List Json),
      ∃ fs, b = .obj fs) ∧
    (JFields.cons "text" (.str "Hi")
        (.cons "blocks" (.arr (jitemsOf [.obj (.cons "type" (.str "section") .nil),
          .obj (.cons "type" (.str "actions") .nil)])) .nil)).lookup "blocks" =
      some (.arr (jitemsOf [.obj (.cons "type" (.str "section") .nil),
        .obj (.cons "type" (.str "actions") .nil)])) ∧
    (∃ out,
      formatUpdatedMessage
        (some (.obj (.cons "text" (.str "Hi")
          (.cons "blocks" (.arr (jitemsOf [.obj (.cons "type" (.str "section") .nil),
            .obj (.cons "type" (.str "actions") .nil)])) .nil))))
        (some (.str "Approve")) (some (.str "Bo")) =
        .ok ⟨(JFields.cons "text" (.str "Hi")
          (.cons "blocks" (.arr (jitemsOf [.obj (.cons "type" (.str "section") .nil),
            .obj (.cons "type" (.str "actions") .nil)])) .nil)).lookup "text", out⟩ ∧
      out.length = ([.obj (.cons "type" (.str "section") .nil),
        .obj (.cons "type" (.str "actions") .nil)] : List Json).length ∧
      (∀ i, (hi : i < ([.obj (.cons "type" (.str "section") .nil),
          .obj (.cons "type" (.str "actions") .nil)] : List Json).length) →
        (blockTypeIsActions ([.obj (.cons "type" (.str "section") .nil),
            .obj (.cons "type" (.str "actions") .nil)] : List Json)[i] = true →
          out[i]? = some (ackBlock (some (.str "Approve")) (some (.str "Bo")))) ∧
        (blockTypeIsActions ([.obj (.cons "type" (.str "section") .nil),
            .obj (.cons "type" (.str "actions") .nil)] : List Json)[i] = false →
          out[i]? = some ([.obj (.cons "type" (.str "section") .nil),
            .obj (.cons "type" (.str "actions") .nil)] : List Json)[i])) ∧
      ackBlock (some (.str "Approve")) (some (.str "Bo")) =
        .obj (.cons "type" (.str "context")
          (.cons "elements" (.arr (.cons (.obj (.cons "type" (.str "mrkdwn")
            (.cons "text" (.str ("*" ++ "Approve" ++ "* by " ++ "Bo")) .nil))) .nil))
            .nil))) :=
  ⟨fun b hb => by
      rcases List.mem_cons.mp hb with rfl | hb2
      · exact ⟨_, rfl⟩
      · rcases List.mem_cons.mp hb2 with rfl | hb3
        · exact ⟨_, rfl⟩
        · simp at hb3,
   rfl,
   c8_rewrite_frame _ _ "Approve" "Bo"
     (fun b hb => by
       rcases List.mem_cons.mp hb with rfl | hb2
       · exact ⟨_, rfl⟩
       · rcases List.mem_cons.mp hb2 with rfl | hb3
         · exact ⟨_, rfl⟩
         · simp at hb3)
     rfl⟩

/-- C9 counterexample: the renderer checks only button presence, never the
label.  A present primary button with an empty label still yields an actions
block holding one control (the claim requires the control — and hence the
block — to be omitted for an empty label). -/
theorem c9_empty_label_counterexample :
    (formatSlackMessage ⟨"rec1", []⟩ ⟨["C1"], "Hi", some ⟨"", none, none⟩, none⟩).blocks =
      [sectionBlock "Hi", actionsBlockOf [primaryButtonJson "rec1" ⟨"", none, none⟩]] ∧
    (formatSlackMessage ⟨"rec1", []⟩
        ⟨["C1"], "Hi", some ⟨"", none, none⟩, none⟩).blocks.length = 2 ∧
    (⟨"", none, none⟩ : ButtonConfig).label = "" := by
  refine ⟨rfl, rfl, rfl⟩

/-- C9 (amended): control construction.  The rendered message is the section
block followed by at most one trailing actions block; the actions block
holds one control per *present* button (regardless of its label, even empty),
in the fixed order primary-then-secondary, and is omitted exactly when
neither button is configured. -/
theorem c9_control_construction (record : AirtableRecord) (config : Config) :
    (formatSlackMessage record config).text =
      renderTemplate config.messageTemplate record.fields ∧
    (config.primaryButton = none → config.secondaryButton = none →
      (formatSlackMessage record config).blocks =
        [sectionBlock (renderTemplate config.messageTemplate record.fields)]) ∧
    (∀ pb, config.primaryButton = some pb → config.secondaryButton = none →
      (formatSlackMessage record config).blocks =
        [sectionBlock (renderTemplate config.messageTemplate record.fields),
         actionsBlockOf [primaryButtonJson record.id pb]]) ∧
    (∀ sb, config.primaryButton = none → config.secondaryButton = some sb →
      (formatSlackMessage record config).blocks =
        [sectionBlock (renderTemplate config.messageTemplate record.fields),
         actionsBlockOf [secondaryButtonJson record.id sb]]) ∧
    (∀ pb sb, config.primaryButton = some pb → config.secondaryButton = some sb →
      (formatSlackMessage record config).blocks =
        [sectionBlock (renderTemplate config.messageTemplate record.fields),
         actionsBlockOf [primaryButtonJson record.id pb,
           secondaryButtonJson record.id sb]]) := by
  refine ⟨by simp [formatSlackMessage], ?_, ?_, ?_, ?_⟩
  · intro hp hs
    simp [formatSlackMessage, hp, hs]
  · intro pb hp hs
    simp [formatSlackMessage, hp, hs]
  · intro sb hp hs
    simp [formatSlackMessage, hp, hs]
  · intro pb sb hp hs
    simp [formatSlackMessage, hp, hs]

theorem c9_control_construction_witness :
    (⟨["C1"], "Hi", some ⟨"Approve", some "Status", some (.str "Approved")⟩,
        some ⟨"Ignore", none, none⟩⟩ : Config).primaryButton =
      some ⟨"Approve", some "Status", some (.str "Approved")⟩ ∧
    (⟨["C1"], "Hi", some ⟨"Approve", some "Status", some (.str "Approved")⟩,
        some ⟨"Ignore", none, none⟩⟩ : Config).secondaryButton =
      some ⟨"Ignore", none, none⟩ ∧
    (formatSlackMessage ⟨"rec1", [("Name", "Acme")]⟩
        ⟨["C1"], "Hi", some ⟨"Approve", some "Status", some (.str "Approved")⟩,
          some ⟨"Ignore", none, none⟩⟩).blocks =
      [sectionBlock (renderTemplate "Hi" [("Name", "Acme")]),
       actionsBlockOf
         [primaryButtonJson "rec1" ⟨"Approve", some "Status", some (.str "Approved")⟩,
          secondaryButtonJson "rec1" ⟨"Ignore", none, none⟩]] :=
  ⟨rfl, rfl,
    (c9_control_construction ⟨"rec1", [("Name", "Acme")]⟩
      ⟨["C1"], "Hi", some ⟨"Approve", some "Status", some (.str "Approved")⟩,
        some ⟨"Ignore", none, none⟩⟩).2.2.2.2
      ⟨"Approve", some "Status", some (.str "Approved")⟩ ⟨"Ignore", none, none⟩
      rfl rfl⟩

/-- C2 counterexample: the substitution loop uses JS `String.replace` with a
string pattern, which replaces only the FIRST occurrence: with field
`Name = Acme`, the template `Hi \x7bName\x7d and \x7bName\x7d` renders to
`Hi Acme and \x7bName\x7d`, not the claimed `Hi Acme and Acme`.  Moreover
the replacement string undergoes JS `$`-substitution, so a field value
containing `$` patterns is not inserted verbatim: value `$$` renders as the
single character `$`, and value `$&` re-inserts the matched token itself.
Finally a field name containing a brace can destroy an absent field's
token: with field `A\x7bB = z`, the template `x\x7bA\x7bB\x7dy` contains
the token `\x7bB\x7d` of the absent field `B`, but the rendered text `xzy`
no longer does. -/
theorem c2_first_occurrence_counterexample :
    renderTemplate "Hi \x7bName\x7d and \x7bName\x7d" [("Name", "Acme")] =
      "Hi Acme and \x7bName\x7d" ∧
    renderTemplate "Hi \x7bName\x7d and \x7bName\x7d" [("Name", "Acme")] ≠
      "Hi Acme and Acme" ∧
    renderTemplate "Hi \x7bName\x7d" [("Name", "$$")] = "Hi $" ∧
    renderTemplate "Hi \x7bName\x7d" [("Name", "$$")] ≠ "Hi $$" ∧
    renderTemplate "A\x7bName\x7dB" [("Name", "$&")] = "A\x7bName\x7dB" ∧
    renderTemplate "A\x7bName\x7dB" [("Name", "$&")] ≠ "A$&B" ∧
    (firstSplit (tokL ("B".data)) ("x\x7bA\x7bB\x7dy".data)).isSome = true ∧
    renderTemplate "x\x7bA\x7bB\x7dy" [("A\x7bB", "z")] = "xzy" ∧
    (firstSplit (tokL ("B".data))
      ((renderTemplate "x\x7bA\x7bB\x7dy" [("A\x7bB", "z")]).data)).isSome = false := by
  refine ⟨rfl, by decide, rfl, by decide, rfl, by decide, rfl, rfl, rfl⟩

/-- C2 (amended): template substitution.  Each field replaces only the first
occurrence of its token in the current text (the occurrence with the
shortest prefix), inserting the JS `GetSubstitution`-expansion of the field
value — which is the value itself exactly when the value contains no `$` —
and leaving the text unchanged when the token does not occur; and a token
of a brace-free field name absent from the (brace-free) field keys that
occurs in the template still occurs in the rendered output. -/
theorem c2_template_substitution :
    (∀ (pat repl s pre post : List Char), firstSplit pat s = some (pre, post) →
      s = pre ++ pat ++ post ∧
      replaceFirst pat repl s = pre ++ getSubstitution pat pre post repl ++ post ∧
      ('$' ∉ repl → replaceFirst pat repl s = pre ++ repl ++ post) ∧
      ∀ a b, s = a ++ pat ++ b → pre.length ≤ a.length) ∧
    (∀ (pat repl s : List Char), firstSplit pat s = none →
      replaceFirst pat repl s = s) ∧
    (∀ (fields : List (String × String)) (template g : String),
      braceFreeName g → (∀ kv ∈ fields, braceFreeName kv.1) →
      (∀ kv ∈ fields, kv.1 ≠ g) →
      occursIn (tokL g.data) template.data →
      occursIn (tokL g.data) (renderTemplate template fields).data) := by
  refine ⟨?_, ?_, ?_⟩
  · intro pat repl s pre post h
    obtain ⟨h1, h2⟩ := firstSplit_some_spec pat s pre post h
    refine ⟨h1, by simp [replaceFirst, h], ?_, h2⟩
    intro hd
    simp [replaceFirst, h, getSubstitution_of_no_dollar pat pre post repl hd]
  · intro pat repl s h
    exact replaceFirst_of_none h
  · intro fields template g hg hks hne hocc
    exact renderTemplate_keeps_absent_token fields template g hg hks hne hocc

theorem c2_template_substitution_witness :
    firstSplit ['a'] ['b', 'a', 'c'] = some (['b'], ['c']) ∧
    (['b', 'a', 'c'] = ['b'] ++ ['a'] ++ ['c'] ∧
     replaceFirst ['a'] ['z'] ['b', 'a', 'c'] =
       ['b'] ++ getSubstitution ['a'] ['b'] ['c'] ['z'] ++ ['c'] ∧
     replaceFirst ['a'] ['z'] ['b', 'a', 'c'] = ['b'] ++ ['z'] ++ ['c'] ∧
     ∀ a b, ['b', 'a', 'c'] = a ++ ['a'] ++ b → (['b'] : List Char).length ≤ a.length) ∧
    (firstSplit ['a'] ['b'] = none ∧ replaceFirst ['a'] ['z'] ['b'] = ['b']) ∧
    occursIn (tokL "Ghost".data)
      (renderTemplate "Hi \x7bGhost\x7d" [("Name", "Acme")]).data :=
  ⟨by decide,
   (fun h => ⟨h.1, h.2.1, h.2.2.1 (by decide), h.2.2.2⟩)
     (c2_template_substitution.1 ['a'] ['z'] ['b', 'a', 'c'] ['b'] ['c'] (by decide)),
   ⟨by decide, c2_template_substitution.2.1 ['a'] ['z'] ['b'] (by decide)⟩,
   c2_template_substitution.2.2 [("Name", "Acme")] "Hi \x7bGhost\x7d" "Ghost"
     (by constructor <;> decide)
     (fun kv hkv => by
       simp only [List.mem_singleton] at hkv
       subst hkv
       exact ⟨by decide, by decide⟩)
     (fun kv hkv => by
       simp only [List.mem_singleton] at hkv
       subst hkv
       decide)
     ⟨"Hi ".data, [], by decide⟩⟩

end NestNotifier
